import Mathlib

/-! Tower of Hanoi (`toh.cpp`): a shallow embedding and its verified properties.

The C++ program is embedded as pure Lean functions.

* `std::vector<Disk>` is a `List Nat`; index 0 is the bottom of the rod, `push_back`
  appends at the end and `pop_back` is `List.dropLast`.
* The global mutable `DISKS` is an explicit argument of `initial` and of the solvers.
* `int` is 32 bits wide and `unsigned long` 64 bits wide (LP64).  Values of type `int`
  are integers reduced into `[-2^31, 2^31)` by `toInt`; conversions to `unsigned long`
  reduce modulo `2^64` (`toULong`).
* A `Towers &` that a procedure extends is passed in and returned.
-/

namespace Hanoi

/-- A disk is represented by its length (`typedef unsigned long Nat`). -/
abbrev Disk : Type := Nat

/-- A rod is the list of its disks, bottom first (`typedef std::vector<Disk> Rod`); the
widths are written as natural numbers. -/
abbrev Rod := List Nat

/-- The three rods of a tower (`struct Tower`). -/
structure Tower where
  left : Rod
  middle : Rod
  right : Rod
deriving DecidableEq, Repr

/-- The full history of towers (`typedef std::vector<Tower> Towers`). -/
abbrev Towers := List Tower

/-- The three locations a disk can be moved from and to (`enum Move`). -/
inductive Move where
  | left
  | middle
  | right
deriving DecidableEq, Repr

/-- Value of a mathematical integer after conversion to a 32-bit `int`
(reduction modulo `2^32` into the signed range). -/
def toInt (x : Int) : Int := (2147483648 + x) % 4294967296 - 2147483648

/-- Value of an `int` after conversion to `unsigned long` (reduction modulo `2^64`). -/
def toULong (x : Int) : Nat := (x % 18446744073709551616).toNat

/-- The element `v[v.size() - 1]` of a rod; only read by the program on a non-empty rod
(the default `0` stands for the read of an empty rod, which the program never does). -/
def top (r : Rod) : Nat := r.getD (r.length - 1) 0

/-- The element `towers[towers.size() - 1]`; the program only reads it on a non-empty
history. -/
def lastTower (towers : Towers) : Tower := towers.getD (towers.length - 1) ⟨[], [], []⟩

/-- Loop of `areEqual` on vectors: `for (i = 0; i < size; i++) if (a[i] != b[i]) return false;`
with `k` iterations left to run from index `i`. -/
def areEqualLoop (a b : Rod) : Nat → Nat → Bool
  | 0, _ => true
  | k + 1, i => if a.getD i 0 ≠ b.getD i 0 then false else areEqualLoop a b k (i + 1)

/-- The vector overload of `areEqual`. -/
def areEqualRod (a b : Rod) : Bool :=
  let size := a.length
  if size ≠ b.length then false else areEqualLoop a b size 0

/-- The tower overload of `areEqual`. -/
def areEqual (a b : Tower) : Bool :=
  areEqualRod a.left b.left && areEqualRod a.middle b.middle && areEqualRod a.right b.right

/-- The function `score`: `return r.size() > 0 ? r[r.size() - 1] : 100;` with the
`unsigned long` element converted to the `int` result. -/
def score (r : Rod) : Int :=
  if r.length > 0 then toInt (top r) else 100

/-- Body of the loop of `initial`, run for `i = k - 1` down to `0`:
`left.push_back(i * 2 + 1)` where `i * 2 + 1` is computed in `int`. -/
def initialLoop : Nat → Rod → Rod
  | 0, left => left
  | i + 1, left => initialLoop i (left ++ [toULong (toInt ((i : Int) * 2 + 1))])

/-- The function `initial`, with the global `DISKS` as argument:
`for (int i = DISKS - 1; i >= 0; i--)`, where `DISKS - 1` is computed in `unsigned long`
(adding `2^64 - 1` modulo `2^64`) and converted to `int`. -/
def initial (DISKS : Nat) : Tower :=
  let i : Int := toInt (((18446744073709551615 + DISKS) % 18446744073709551616 : Nat) : Int)
  ⟨if i ≥ 0 then initialLoop (i.toNat + 1) [] else [], [], []⟩

/-- The lambda `tryMove` of `makeMove`; it returns the two rods it was given by reference. -/
def tryMove (a b : Rod) : Rod × Rod :=
  if score a > score b then (a, b)
  else (a.dropLast, b ++ [top a])

/-- The function `makeMove`. -/
def makeMove (tower : Tower) (from_ to_ : Move) : Tower :=
  let l := tower.left
  let m := tower.middle
  let r := tower.right
  if from_ = to_ then tower
  else if from_ = Move.left then
    if l.length = 0 then tower
    else if to_ = Move.middle then
      let p := tryMove l m
      ⟨p.1, p.2, r⟩
    else
      let p := tryMove l r
      ⟨p.1, m, p.2⟩
  else if from_ = Move.middle then
    if m.length = 0 then tower
    else if to_ = Move.left then
      let p := tryMove m l
      ⟨p.2, p.1, r⟩
    else
      let p := tryMove m r
      ⟨l, p.1, p.2⟩
  else
    if r.length = 0 then tower
    else if to_ = Move.left then
      let p := tryMove r l
      ⟨p.2, m, p.1⟩
    else
      let p := tryMove r m
      ⟨l, p.2, p.1⟩

/-- The procedure `_solveIteratively`: one step of the iterative solver. -/
def _solveIteratively (towers : Towers) (from_ to_ : Move) : Towers :=
  let last := lastTower towers
  if (from_ = Move.left ∧ last.left.length = 0) ∨
      (from_ = Move.middle ∧ last.middle.length = 0) ∨
      (from_ = Move.right ∧ last.right.length = 0) then
    towers ++ [makeMove last to_ from_]
  else if (to_ = Move.left ∧ last.left.length = 0) ∨
      (to_ = Move.middle ∧ last.middle.length = 0) ∨
      (to_ = Move.right ∧ last.right.length = 0) then
    towers ++ [makeMove last from_ to_]
  else if from_ = Move.left then
    if (to_ = Move.middle ∧ score last.left > score last.middle) ∨
        (to_ = Move.right ∧ score last.left > score last.right) then
      towers ++ [makeMove last to_ from_]
    else towers ++ [makeMove last from_ to_]
  else if from_ = Move.middle then
    if (to_ = Move.left ∧ score last.middle > score last.left) ∨
        (to_ = Move.right ∧ score last.middle > score last.right) then
      towers ++ [makeMove last to_ from_]
    else towers ++ [makeMove last from_ to_]
  else if from_ = Move.right then
    if (to_ = Move.left ∧ score last.right > score last.left) ∨
        (to_ = Move.middle ∧ score last.right > score last.middle) then
      towers ++ [makeMove last to_ from_]
    else towers ++ [makeMove last from_ to_]
  else towers

/-- Body of the loop of `solveIteratively` for the index `i`: the `switch (i % 3)`. -/
def solveIterativelyBody (even : Bool) (i : Int) (towers : Towers) : Towers :=
  if i % 3 = 1 then
    if even then _solveIteratively towers Move.left Move.middle
    else _solveIteratively towers Move.left Move.right
  else if i % 3 = 2 then
    if even then _solveIteratively towers Move.left Move.right
    else _solveIteratively towers Move.left Move.middle
  else if i % 3 = 0 then
    if even then _solveIteratively towers Move.right Move.middle
    else _solveIteratively towers Move.middle Move.right
  else towers

/-- The loop `for (int i = ...; i <= moves; i++)` of `solveIteratively` with `k`
iterations left to run from index `i`. -/
def solveIterativelyLoop (even : Bool) : Nat → Int → Towers → Towers
  | 0, _, towers => towers
  | k + 1, i, towers => solveIterativelyLoop even k (i + 1) (solveIterativelyBody even i towers)

/-- The `int` value of `2 << c` for an `unsigned long` shift count `c`: the product
`2 * 2^c` reduced to 32 bits.  A shift by 32 bits or more has no defined value (`none`). -/
def shiftLeftTwo (c : Nat) : Option Int :=
  if c < 32 then some (toInt (2 * 2 ^ c)) else none

/-- The bound `const int moves = (2 << (disks - 1)) - 1;` of `solveIteratively`,
where `disks - 1` is computed in `unsigned long` (adding `2^64 - 1` modulo `2^64`). -/
def iterMoves (disks : Nat) : Option Int :=
  (shiftLeftTwo ((18446744073709551615 + disks) % 18446744073709551616)).map
    (fun v => toInt (v - 1))

/-- The function `solveIteratively`.  The loop `for (int i = 1; i <= moves; i++)` runs its
body for `i = 1, ..., moves`; when `moves` is the largest `int` the condition `i <= moves`
can never fail, the loop does not end and there is no result (`none`). -/
def solveIteratively (DISKS : Nat) : Option Towers :=
  let towers : Towers := [initial DISKS]
  let f := towers.getD 0 ⟨[], [], []⟩
  let disks := f.left.length + f.middle.length + f.right.length
  let even : Bool := disks % 2 = 0
  match iterMoves disks with
  | none => none
  | some moves =>
    if moves < 2147483647 then some (solveIterativelyLoop even moves.toNat 1 towers)
    else none

/-- The procedure `_solveRecursively`. -/
def _solveRecursively (towers : Towers) (n : Nat) (f t u : Move) : Towers :=
  match n with
  | 0 => towers
  | n + 1 =>
    let towers1 := _solveRecursively towers n f u t
    let towers2 := towers1 ++ [makeMove (lastTower towers1) f u]
    _solveRecursively towers2 n t f u

/-- The function `solveRecursively`. -/
def solveRecursively (DISKS : Nat) : Towers :=
  let towers : Towers := [initial DISKS]
  let f := towers.getD 0 ⟨[], [], []⟩
  let disks := f.left.length + f.middle.length + f.right.length
  _solveRecursively towers disks Move.left Move.middle Move.right

/-- The goal tower of `solveManually`: `Tower({}, {}, initial().left)`. -/
def goal (DISKS : Nat) : Tower := ⟨[], [], (initial DISKS).left⟩

/-- The rod of a tower at a location. -/
def rod (s : Tower) : Move → Rod
  | Move.left => s.left
  | Move.middle => s.middle
  | Move.right => s.right

/-- The tower with the rod at a location replaced. -/
def setRod (s : Tower) (p : Move) (r : Rod) : Tower :=
  match p with
  | Move.left => ⟨r, s.middle, s.right⟩
  | Move.middle => ⟨s.left, r, s.right⟩
  | Move.right => ⟨s.left, s.middle, r⟩

/-- The tower reached by a sequence of `makeMove` calls. -/
def applyMoves (s : Tower) (moves : List (Move × Move)) : Tower :=
  moves.foldl (fun acc mv => makeMove acc mv.1 mv.2) s

/-- The multiset of disk widths over the three rods of a tower. -/
def diskMultiset (s : Tower) : Multiset Nat :=
  (s.left : Multiset Nat) + (s.middle : Multiset Nat) + (s.right : Multiset Nat)


/-- Width pushed by `initial` at loop index `i`: the `int` value `i * 2 + 1` converted to
`unsigned long`. -/
def width (i : Nat) : Nat := toULong (toInt ((i : Int) * 2 + 1))

/-- Number of iterations of the loop of `initial`. -/
def initialCount (DISKS : Nat) : Nat :=
  let i : Int := toInt (((18446744073709551615 + DISKS) % 18446744073709551616 : Nat) : Int)
  if i ≥ 0 then i.toNat + 1 else 0

/-- Smallest on top: every rod is strictly decreasing in width from bottom (index 0) to top
(last element) and no two disks of the tower share a width. -/
def SmallestOnTop (s : Tower) : Prop :=
  s.left.Pairwise (· > ·) ∧ s.middle.Pairwise (· > ·) ∧ s.right.Pairwise (· > ·) ∧
    (s.left ++ s.middle ++ s.right).Nodup

/-- The disks that lie under the movable ones: `F` on the left rod, none elsewhere. -/
def base (F : Rod) : Move → Rod
  | Move.left => F
  | Move.middle => []
  | Move.right => []

/-- Invariant of the towers reached from a tower whose left rod starts with the disks `F`
that score more than an empty rod: `F` stays where it is, every other disk is narrower
than 100, the disks above `F` and on the other rods are strictly decreasing, and no width
occurs twice. -/
def Frozen (F : Rod) (s : Tower) : Prop :=
  (diskMultiset s).Nodup ∧
    ∃ L : Move → Rod, (∀ p, rod s p = base F p ++ L p) ∧
      (∀ p, (L p).Pairwise (· > ·)) ∧ (∀ p, ∀ d ∈ L p, d < 100)

/-- The `(f, u)` pairs that `_solveRecursively` passes to `makeMove`, in call order. -/
def recMoves : Nat → Move → Move → Move → List (Move × Move)
  | 0, _, _, _ => []
  | n + 1, f, t, u => recMoves n f u t ++ [(f, u)] ++ recMoves n t f u

/-- The history extended by one `towers.push_back(makeMove(towers[towers.size() - 1], f, u))`
for each pair of a list. -/
def runMoves (towers : Towers) (moves : List (Move × Move)) : Towers :=
  moves.foldl (fun h mv => h ++ [makeMove (lastTower h) mv.1 mv.2]) towers

/-- A move between distinct locations from a non-empty rod that scores strictly less than
the destination rod: `makeMove` accepts it and rejects the opposite move. -/
def StrictLegal (s : Tower) (f u : Move) : Prop :=
  f ≠ u ∧ rod s f ≠ [] ∧ score (rod s f) < score (rod s u)

/-- Every move of the list is strictly legal in the tower it is applied to. -/
def AllLegal : Tower → List (Move × Move) → Prop
  | _, [] => True
  | s, mv :: rest => StrictLegal s mv.1 mv.2 ∧ AllLegal (makeMove s mv.1 mv.2) rest

/-- The pair of locations that the `switch (i % 3)` of `solveIteratively` passes to
`_solveIteratively`, with `f`, `t`, `u` in place of left, middle, right. -/
def cand (even : Bool) (f t u : Move) (i : Int) : Move × Move :=
  if i % 3 = 1 then (if even then (f, t) else (f, u))
  else if i % 3 = 2 then (if even then (f, u) else (f, t))
  else (if even then (u, t) else (t, u))

/-- Two pairs of locations that are equal up to their order. -/
def SameRods (p q : Move × Move) : Prop := p = q ∨ p = (q.2, q.1)

/-- From index `i` on, the pairs `c i, c (i + 1), ...` are those of the list, each up to
order. -/
def Follows (c : Int → Move × Move) : Int → List (Move × Move) → Prop
  | _, [] => True
  | i, mv :: rest => SameRods (c i) mv ∧ Follows c (i + 1) rest

/-- Parity flag of `solveIteratively`: `disks % 2 == 0`. -/
def par (n : Nat) : Bool := decide (n % 2 = 0)

mutual

/-- The procedure `_solveMutuallyRecursivelyA`. -/
def _solveMutuallyRecursivelyA (towers : Towers) (n : Nat) (f t u : Move) : Towers :=
  match n with
  | 0 => towers
  | n + 1 =>
    let towers1 := _solveMutuallyRecursivelyA towers n f u t
    let towers2 := towers1 ++ [makeMove (lastTower towers1) f u]
    _solveMutuallyRecursivelyB towers2 n t f u

/-- The procedure `_solveMutuallyRecursivelyB`. -/
def _solveMutuallyRecursivelyB (towers : Towers) (n : Nat) (f t u : Move) : Towers :=
  match n with
  | 0 => towers
  | n + 1 =>
    let towers1 := _solveMutuallyRecursivelyA towers n f u t
    let towers2 := towers1 ++ [makeMove (lastTower towers1) f u]
    _solveMutuallyRecursivelyB towers2 n t f u

end

/-- The function `solveMutuallyRecursively`. -/
def solveMutuallyRecursively (DISKS : Nat) : Towers :=
  let towers : Towers := [initial DISKS]
  let f := towers.getD 0 ⟨[], [], []⟩
  let disks := f.left.length + f.middle.length + f.right.length
  _solveMutuallyRecursivelyA towers disks Move.left Move.middle Move.right

/-- One iteration of the loop of `solveManually` for the locations read from the user:
`next = makeMove(last, from, to)`, `if (!areEqual(next, last)) towers.push_back(next)`,
`won = areEqual(next, Tower({}, {}, initial().left))`.  The result is the history and the
flag `won`. -/
def solveManuallyStep (DISKS : Nat) (towers : Towers) (from_ to_ : Move) : Towers × Bool :=
  let last := lastTower towers
  let next := makeMove last from_ to_
  let towers1 := if !areEqual next last then towers ++ [next] else towers
  (towers1, areEqual next ⟨[], [], (initial DISKS).left⟩)

/-- Reference recursion of the specification, `hanoi(n, source, target, auxiliary)`: nothing
for `n = 0`; otherwise `hanoi(n-1, source, auxiliary, target)`, then the move
`(source, target)` applied to the last tower and appended, then
`hanoi(n-1, auxiliary, target, source)`. -/
def hanoiSpec (towers : Towers) (n : Nat) (source target auxiliary : Move) : Towers :=
  match n with
  | 0 => towers
  | n + 1 =>
    let towers1 := hanoiSpec towers n source auxiliary target
    let towers2 := towers1 ++ [makeMove (lastTower towers1) source target]
    hanoiSpec towers2 n auxiliary target source

/-- The widths `2N-1, 2N-3, ..., 3, 1`, listed from the bottom to the top of a rod. -/
def oddWidths (N : Nat) : Rod := (List.range N).reverse.map (fun i => 2 * i + 1)

/-- Check that no tower of the history is `areEqual` to the tower just before it. -/
def noRepeatCheck : Towers → Bool
  | a :: b :: rest => !areEqual b a && noRepeatCheck (b :: rest)
  | _ => true

/-- No tower of the history is `areEqual` to the tower just before it. -/
def NoRepeat (towers : Towers) : Prop := noRepeatCheck towers = true

/-- Two histories have the same length and `areEqual` towers at every index. -/
def SameHistory (a b : Towers) : Prop :=
  a.length = b.length ∧
    ∀ i, i < a.length → areEqual (a.getD i ⟨[], [], []⟩) (b.getD i ⟨[], [], []⟩) = true

/-- The move is rejected by `makeMove`: same location, empty source rod, or a source rod
that scores more than the destination rod. -/
def Rejected (s : Tower) (from_ to_ : Move) : Prop :=
  from_ = to_ ∨ rod s from_ = [] ∨ score (rod s from_) > score (rod s to_)

/-- Every disk of the tower is narrower than `bound`. -/
def AllBelow (bound : Nat) (s : Tower) : Prop :=
  (∀ d ∈ s.left, d < bound) ∧ (∀ d ∈ s.middle, d < bound) ∧ (∀ d ∈ s.right, d < bound)

/-- The loop `while (!won)` of `solveManually`, the pairs returned by the two calls of
`getUserMove` in each iteration being given as a list; `none` when the list ends before the
puzzle is won (the program keeps asking). -/
def solveManuallyLoop (DISKS : Nat) : List (Move × Move) → Towers → Option Towers
  | [], _ => none
  | mv :: rest, towers =>
    let r := solveManuallyStep DISKS towers mv.1 mv.2
    if r.2 then some r.1 else solveManuallyLoop DISKS rest r.1

/-- The function `solveManually` on a list of user moves. -/
def solveManually (DISKS : Nat) (inputs : List (Move × Move)) : Option Towers :=
  solveManuallyLoop DISKS inputs [initial DISKS]

instance (bound : Nat) (s : Tower) : Decidable (AllBelow bound s) :=
  inferInstanceAs (Decidable ((∀ d ∈ s.left, d < bound) ∧ (∀ d ∈ s.middle, d < bound) ∧
    (∀ d ∈ s.right, d < bound)))

instance (s : Tower) (from_ to_ : Move) : Decidable (Rejected s from_ to_) :=
  inferInstanceAs (Decidable (from_ = to_ ∨ rod s from_ = [] ∨
    score (rod s from_) > score (rod s to_)))

instance (s : Tower) (f u : Move) : Decidable (StrictLegal s f u) :=
  inferInstanceAs (Decidable (f ≠ u ∧ rod s f ≠ [] ∧ score (rod s f) < score (rod s u)))

instance (towers : Towers) : Decidable (NoRepeat towers) :=
  inferInstanceAs (Decidable (noRepeatCheck towers = true))

instance (s : Tower) : Decidable (SmallestOnTop s) :=
  inferInstanceAs (Decidable (s.left.Pairwise (· > ·) ∧ s.middle.Pairwise (· > ·) ∧
    s.right.Pairwise (· > ·) ∧ (s.left ++ s.middle ++ s.right).Nodup))

instance (a b : Towers) : Decidable (SameHistory a b) :=
  inferInstanceAs (Decidable (a.length = b.length ∧
    ∀ i, i < a.length → areEqual (a.getD i ⟨[], [], []⟩) (b.getD i ⟨[], [], []⟩) = true))

/-! ## Rods -/

theorem top_append (a : Rod) (d : Nat) : top (a ++ [d]) = d := by
  simp [top, List.getD_eq_getElem?_getD]

theorem score_nil : score [] = 100 := by
  simp [score]

theorem score_append (a : Rod) (d : Nat) : score (a ++ [d]) = toInt d := by
  simp [score, top_append]

theorem rod_cases (a : Rod) : a = [] ∨ ∃ r d, a = r ++ [d] := by
  rcases List.eq_nil_or_concat a with h0 | ⟨r, d, h1⟩
  · exact Or.inl h0
  · exact Or.inr ⟨r, d, by simpa using h1⟩

theorem dropLast_snoc (r : Rod) (d : Nat) : (r ++ [d]).dropLast = r := by
  simp

theorem rod_eq_dropLast_top (a : Rod) (h : a ≠ []) : a = a.dropLast ++ [top a] := by
  rcases rod_cases a with h0 | ⟨r, d, rfl⟩
  · exact absurd h0 h
  · rw [dropLast_snoc, top_append]

theorem toInt_lt (x : Int) : toInt x < 2147483648 := by
  unfold toInt; omega

theorem toInt_ge (x : Int) : -2147483648 ≤ toInt x := by
  unfold toInt; omega

theorem toInt_of_lt (x : Int) (h0 : -2147483648 ≤ x) (h1 : x < 2147483648) : toInt x = x := by
  unfold toInt; omega

theorem score_lt (r : Rod) : score r < 2147483648 := by
  unfold score
  split
  · exact toInt_lt _
  · decide

/-! ## Equality of rods and towers -/

theorem areEqualLoop_iff (a b : Rod) (k i : Nat) :
    areEqualLoop a b k i = true ↔ ∀ j, i ≤ j → j < i + k → a.getD j 0 = b.getD j 0 := by
  induction k generalizing i with
  | zero =>
    simp only [areEqualLoop, true_iff]
    intro j h1 h2
    omega
  | succ k ih =>
    simp only [areEqualLoop]
    by_cases h : a.getD i 0 = b.getD i 0
    · simp only [ne_eq, h, not_true_eq_false, if_false, ih]
      constructor
      · intro hh j h1 h2
        by_cases hj : j = i
        · subst hj; exact h
        · exact hh j (by omega) (by omega)
      · intro hh j h1 h2
        exact hh j (by omega) (by omega)
    · simp only [ne_eq, h, not_false_eq_true, if_true]
      constructor
      · intro hh; exact absurd hh (by decide)
      · intro hh; exact absurd (hh i (le_refl i) (by omega)) h

theorem areEqualRod_iff (a b : Rod) : areEqualRod a b = true ↔ a = b := by
  unfold areEqualRod
  by_cases hl : a.length = b.length
  · simp only [ne_eq, hl, not_true_eq_false, if_false]
    rw [← hl, areEqualLoop_iff]
    constructor
    · intro h
      apply List.ext_getElem hl
      intro n h1 h2
      have := h n (Nat.zero_le n) (by omega)
      simpa [List.getD_eq_getElem?_getD, List.getElem?_eq_getElem h1,
        List.getElem?_eq_getElem h2] using this
    · intro h j _ _
      rw [h]
  · simp only [ne_eq, hl, not_false_eq_true, if_true]
    constructor
    · intro h; exact absurd h (by decide)
    · intro h; exact absurd (congrArg List.length h) hl

theorem areEqual_iff (a b : Tower) : areEqual a b = true ↔ a = b := by
  unfold areEqual
  simp only [Bool.and_eq_true, areEqualRod_iff]
  constructor
  · rintro ⟨⟨h1, h2⟩, h3⟩
    cases a; cases b
    simp_all
  · intro h
    subst h
    exact ⟨⟨rfl, rfl⟩, rfl⟩

/-! ## The move function -/

theorem tryMove_reject (a b : Rod) (h : score a > score b) : tryMove a b = (a, b) := by
  simp [tryMove, h]

theorem tryMove_accept (a b : Rod) (h : ¬ score a > score b) :
    tryMove a b = (a.dropLast, b ++ [top a]) := by
  simp [tryMove, h]

/-- Closed form of `makeMove`: the tower is returned as it is when the two locations are the
same, the source rod is empty or the source scores more than the destination; otherwise
the top disk of the source rod goes onto the destination rod. -/
theorem makeMove_eq (s : Tower) (f t : Move) :
    makeMove s f t =
      if f = t ∨ rod s f = [] ∨ score (rod s f) > score (rod s t) then s
      else setRod (setRod s f (rod s f).dropLast) t (rod s t ++ [top (rod s f)]) := by
  cases s with
  | mk l m r =>
    cases f <;> cases t <;>
      simp only [makeMove, rod, setRod, reduceCtorEq, if_true, if_false, true_or, false_or,
        List.length_eq_zero] <;>
      (split_ifs <;> simp_all [tryMove, not_lt_of_le])

theorem rod_setRod_same (s : Tower) (p : Move) (r : Rod) : rod (setRod s p r) p = r := by
  cases p <;> rfl

theorem rod_setRod_ne (s : Tower) (p q : Move) (r : Rod) (h : q ≠ p) :
    rod (setRod s p r) q = rod s q := by
  cases p <;> cases q <;> first | rfl | exact absurd rfl h

theorem tower_ext_rod (a b : Tower) (h : ∀ p, rod a p = rod b p) : a = b := by
  cases a; cases b
  have h1 := h Move.left
  have h2 := h Move.middle
  have h3 := h Move.right
  simp only [rod] at h1 h2 h3
  simp [h1, h2, h3]

theorem makeMove_illegal (s : Tower) (f t : Move)
    (h : f = t ∨ rod s f = [] ∨ score (rod s f) > score (rod s t)) : makeMove s f t = s := by
  rw [makeMove_eq, if_pos h]

theorem makeMove_legal (s : Tower) (f t : Move) (hne : f ≠ t) (hf : rod s f ≠ [])
    (hs : score (rod s f) ≤ score (rod s t)) :
    makeMove s f t = setRod (setRod s f (rod s f).dropLast) t (rod s t ++ [top (rod s f)]) := by
  rw [makeMove_eq, if_neg]
  rintro (h | h | h)
  · exact hne h
  · exact hf h
  · exact absurd hs (not_le.mpr h)

theorem diskMultiset_makeMove (s : Tower) (f t : Move) :
    diskMultiset (makeMove s f t) = diskMultiset s := by
  rw [makeMove_eq]
  split
  · rfl
  · rename_i h
    simp only [not_or] at h
    obtain ⟨hne, hf, _⟩ := h
    rcases rod_cases (rod s f) with h0 | ⟨a, d, ha⟩
    · exact absurd h0 hf
    · rw [ha, dropLast_snoc, top_append]
      cases s with
      | mk l m r =>
        cases f <;> cases t <;> simp only [rod] at ha <;> subst ha <;>
          first
          | exact absurd rfl hne
          | (simp only [diskMultiset, setRod, rod, Multiset.coe_add, Multiset.coe_eq_coe]
             rw [List.perm_iff_count]
             intro x
             simp only [List.count_append]
             omega)

theorem diskMultiset_applyMoves (s : Tower) (moves : List (Move × Move)) :
    diskMultiset (applyMoves s moves) = diskMultiset s := by
  induction moves generalizing s with
  | nil => rfl
  | cons mv rest ih =>
    simp only [applyMoves, List.foldl_cons]
    exact (ih (makeMove s mv.1 mv.2)).trans (diskMultiset_makeMove s mv.1 mv.2)

/-! ## The initial tower -/

theorem toULong_natCast (n : Nat) (h : n < 18446744073709551616) : toULong (n : Int) = n := by
  unfold toULong
  have h1 : ((n : Int)) % 18446744073709551616 = (n : Int) := by omega
  rw [h1]
  exact Int.toNat_natCast n

theorem toULong_neg (x : Int) (n : Nat) (h0 : x < 0) (h1 : -18446744073709551616 ≤ x)
    (hn : (n : Int) = x + 18446744073709551616) : toULong x = n := by
  unfold toULong
  have h2 : x % 18446744073709551616 = (n : Int) := by omega
  rw [h2]
  exact Int.toNat_natCast n

theorem width_small (i : Nat) (h : i < 1073741824) : width i = 2 * i + 1 := by
  unfold width
  rw [toInt_of_lt _ (by omega) (by omega)]
  have h1 : (i : Int) * 2 + 1 = ((2 * i + 1 : Nat) : Int) := by omega
  rw [h1]
  exact toULong_natCast _ (by omega)

theorem width_large (i : Nat) (h1 : 1073741824 ≤ i) (h2 : i < 2147483648) :
    width i = 2 * i + 1 + 18446744069414584320 := by
  unfold width
  have h3 : toInt ((i : Int) * 2 + 1) = (i : Int) * 2 + 1 - 4294967296 := by
    unfold toInt
    omega
  rw [h3]
  exact toULong_neg _ _ (by omega) (by omega) (by omega)

theorem width_lt_width (i j : Nat) (hij : i < j) (hj : j < 2147483648) : width i < width j := by
  rcases Nat.lt_or_ge i 1073741824 with hi | hi <;>
    rcases Nat.lt_or_ge j 1073741824 with hj1 | hj1
  · rw [width_small i hi, width_small j hj1]; omega
  · rw [width_small i hi, width_large j hj1 hj]; omega
  · omega
  · rw [width_large i hi (by omega), width_large j hj1 hj]; omega

theorem initialLoop_eq (k : Nat) (acc : Rod) : initialLoop k acc = acc ++ initialLoop k [] := by
  induction k generalizing acc with
  | zero => simp [initialLoop]
  | succ i ih =>
    simp only [initialLoop]
    rw [ih (acc ++ _), ih ([] ++ _)]
    simp

theorem initialLoop_succ (i : Nat) : initialLoop (i + 1) [] = width i :: initialLoop i [] := by
  simp only [initialLoop]
  rw [initialLoop_eq]
  rfl

theorem initial_eq (DISKS : Nat) :
    initial DISKS = ⟨initialLoop (initialCount DISKS) [], [], []⟩ := by
  unfold initial initialCount
  simp only
  split <;> rfl

theorem initial_left (DISKS : Nat) :
    (initial DISKS).left = initialLoop (initialCount DISKS) [] := by
  rw [initial_eq]

theorem initial_middle (DISKS : Nat) : (initial DISKS).middle = [] := by
  rw [initial_eq]

theorem initial_right (DISKS : Nat) : (initial DISKS).right = [] := by
  rw [initial_eq]

theorem initialCount_le (DISKS : Nat) : initialCount DISKS ≤ 2147483648 := by
  unfold initialCount
  simp only
  split
  · have := toInt_lt (((18446744073709551615 + DISKS) % 18446744073709551616 : Nat) : Int)
    omega
  · omega

theorem initialCount_eq (DISKS : Nat) (h : DISKS ≤ 2147483648) : initialCount DISKS = DISKS := by
  unfold initialCount toInt
  simp only
  split <;> omega

theorem length_initialLoop (k : Nat) : (initialLoop k []).length = k := by
  induction k with
  | zero => rfl
  | succ i ih => rw [initialLoop_succ, List.length_cons, ih]

theorem mem_initialLoop (k : Nat) (d : Nat) (h : d ∈ initialLoop k []) :
    ∃ i, i < k ∧ d = width i := by
  induction k with
  | zero => simp [initialLoop] at h
  | succ i ih =>
    rw [initialLoop_succ, List.mem_cons] at h
    rcases h with h | h
    · exact ⟨i, by omega, h⟩
    · obtain ⟨j, hj, hd⟩ := ih h
      exact ⟨j, by omega, hd⟩

theorem pairwise_initialLoop (k : Nat) (hk : k ≤ 2147483648) :
    (initialLoop k []).Pairwise (· > ·) := by
  induction k with
  | zero => simp [initialLoop]
  | succ i ih =>
    have hi : i < 2147483648 := Nat.lt_of_succ_le hk
    rw [initialLoop_succ, List.pairwise_cons]
    refine ⟨?_, ih (Nat.le_of_lt hi)⟩
    intro d hd
    obtain ⟨j, hj, hdj⟩ := mem_initialLoop i d hd
    rw [hdj]
    exact width_lt_width j i hj hi

/-! ## Towers reached by moves: the frozen bottom of the left rod -/

theorem toInt_natCast (n : Nat) (h : n < 2147483648) : toInt (n : Int) = (n : Int) :=
  toInt_of_lt _ (by omega) (by omega)

theorem score_snoc (a : Rod) (e : Nat) (h : e < 2147483648) : score (a ++ [e]) = (e : Int) := by
  rw [score_append, toInt_natCast e h]

theorem score_le_of_small (R : Rod) (h : ∀ d ∈ R, d < 100) : score R ≤ 100 := by
  rcases rod_cases R with h0 | ⟨b, e, hb⟩
  · rw [h0, score_nil]
  · have he : e < 100 := h e (by rw [hb]; simp)
    rw [hb, score_snoc b e (by omega)]
    omega

theorem mem_diskMultiset (s : Tower) (p : Move) (d : Nat) (h : d ∈ rod s p) :
    d ∈ diskMultiset s := by
  cases s with
  | mk l m r =>
    cases p <;> simp only [rod] at h <;>
      simp only [diskMultiset, Multiset.mem_add, Multiset.mem_coe] <;> tauto

theorem disjoint_rods (s : Tower) (hnd : (diskMultiset s).Nodup) (p q : Move) (hpq : p ≠ q)
    (d : Nat) (hp : d ∈ rod s p) (hq : d ∈ rod s q) : False := by
  cases s with
  | mk l m r =>
    simp only [diskMultiset, Multiset.coe_add, Multiset.coe_nodup, List.nodup_append,
      List.mem_append] at hnd
    obtain ⟨⟨_, _, h1⟩, _, h2⟩ := hnd
    cases p <;> cases q <;> simp only [rod] at hp hq <;>
      first
      | exact absurd rfl hpq
      | exact h1 hp hq
      | exact h1 hq hp
      | exact h2 (List.mem_append.mpr (Or.inl hp)) hq
      | exact h2 (List.mem_append.mpr (Or.inl hq)) hp
      | exact h2 (List.mem_append.mpr (Or.inr hp)) hq
      | exact h2 (List.mem_append.mpr (Or.inr hq)) hp

theorem frozen_makeMove (F : Rod) (hF : F ≠ [] → 100 < score F) (s : Tower) (f t : Move)
    (h : Frozen F s) : Frozen F (makeMove s f t) := by
  obtain ⟨hnd, L, hrod, hpw, hsm⟩ := h
  refine ⟨by rw [diskMultiset_makeMove]; exact hnd, ?_⟩
  rw [makeMove_eq]
  split
  · exact ⟨L, hrod, hpw, hsm⟩
  · rename_i hc
    simp only [not_or, not_lt] at hc
    obtain ⟨hne, hf, hs⟩ := hc
    have hLf : L f ≠ [] := by
      intro h0
      have hrf := hrod f
      rw [h0, List.append_nil] at hrf
      cases f with
      | left =>
        have hFne : F ≠ [] := by
          intro hF0
          apply hf
          rw [hrf]
          exact hF0
        have h100 := hF hFne
        have hrt := hrod t
        have hbt : base F t = [] := by
          cases t with
          | left => exact absurd rfl hne
          | middle => rfl
          | right => rfl
        rw [hbt, List.nil_append] at hrt
        have hle := score_le_of_small (rod s t) (by rw [hrt]; exact hsm t)
        rw [hrf] at hs
        have hbl : base F Move.left = F := rfl
        rw [hbl] at hs
        omega
      | middle => exact hf hrf
      | right => exact hf hrf
    rcases rod_cases (L f) with h0 | ⟨L0, d, hL⟩
    · exact absurd h0 hLf
    · have hd : d < 100 := hsm f d (by rw [hL]; simp)
      have hrf : rod s f = (base F f ++ L0) ++ [d] := by
        rw [hrod f, hL, List.append_assoc]
      have hdf : d ∈ rod s f := by rw [hrf]; simp
      rw [hrf, score_snoc _ d (by omega)] at hs
      rw [hrf, dropLast_snoc, top_append]
      have hlt : ∀ e ∈ L t, d < e := by
        rcases rod_cases (L t) with h0 | ⟨b, e0, hb⟩
        · rw [h0]
          intro e he
          simp at he
        · have he0 : e0 < 100 := hsm t e0 (by rw [hb]; simp)
          have hrt : rod s t = (base F t ++ b) ++ [e0] := by
            rw [hrod t, hb, List.append_assoc]
          rw [hrt, score_snoc _ e0 (by omega)] at hs
          have hne0 : d ≠ e0 := by
            intro hde
            apply disjoint_rods s hnd f t hne d hdf
            rw [hrt, hde]
            simp
          have hpt := hpw t
          rw [hb, List.pairwise_append] at hpt
          intro e he
          rw [hb, List.mem_append, List.mem_singleton] at he
          rcases he with he | he
          · have := hpt.2.2 e he e0 (by simp)
            omega
          · omega
      refine ⟨fun p => if p = t then L t ++ [d] else if p = f then L0 else L p, ?_, ?_, ?_⟩
      · intro p
        beta_reduce
        by_cases hpt : p = t
        · subst hpt
          rw [rod_setRod_same, if_pos rfl, hrod p, List.append_assoc]
        · by_cases hpf : p = f
          · subst hpf
            rw [rod_setRod_ne _ _ _ _ hpt, rod_setRod_same, if_neg hpt, if_pos rfl]
          · rw [rod_setRod_ne _ _ _ _ hpt, rod_setRod_ne _ _ _ _ hpf, if_neg hpt, if_neg hpf]
            exact hrod p
      · intro p
        by_cases hpt : p = t
        · subst hpt
          simp only [if_pos]
          rw [List.pairwise_append]
          refine ⟨hpw p, List.pairwise_singleton _ _, ?_⟩
          intro e he x hx
          rw [List.mem_singleton] at hx
          subst hx
          exact hlt e he
        · by_cases hpf : p = f
          · subst hpf
            simp only [if_neg hpt, if_pos]
            have := hpw p
            rw [hL, List.pairwise_append] at this
            exact this.1
          · simp only [if_neg hpt, if_neg hpf]
            exact hpw p
      · intro p e he
        by_cases hpt : p = t
        · subst hpt
          simp only [if_pos, List.mem_append, List.mem_singleton] at he
          rcases he with he | he
          · exact hsm p e he
          · omega
        · by_cases hpf : p = f
          · subst hpf
            simp only [if_neg hpt, if_pos] at he
            exact hsm p e (by rw [hL]; simp [he])
          · simp only [if_neg hpt, if_neg hpf] at he
            exact hsm p e he

theorem frozen_applyMoves (F : Rod) (hF : F ≠ [] → 100 < score F) (s : Tower)
    (moves : List (Move × Move)) (h : Frozen F s) : Frozen F (applyMoves s moves) := by
  induction moves generalizing s with
  | nil => exact h
  | cons mv rest ih =>
    simp only [applyMoves, List.foldl_cons]
    exact ih (makeMove s mv.1 mv.2) (frozen_makeMove F hF s mv.1 mv.2 h)

/-! ## Smallest on top in every reachable tower -/

theorem score_cons_of_ne_nil (x : Nat) (F : Rod) (h : F ≠ []) : score (x :: F) = score F := by
  rcases rod_cases F with h0 | ⟨b, e, hb⟩
  · exact absurd h0 h
  · rw [hb, ← List.cons_append, score_append, score_append]

theorem width_gt_100 (i : Nat) (h1 : 50 ≤ i) (h2 : i < 2147483648) : 100 < width i := by
  rcases Nat.lt_or_ge i 1073741824 with hi | hi
  · rw [width_small i hi]; omega
  · rw [width_large i hi h2]; omega

theorem initialLoop_small (j : Nat) (hj : j ≤ 50) : ∀ d ∈ initialLoop j [], d < 100 := by
  intro d hd
  obtain ⟨i, hi, hdi⟩ := mem_initialLoop j d hd
  rw [hdi, width_small i (by omega)]
  omega

theorem initialLoop_split (k : Nat) (hk : k ≤ 2147483648) :
    ∃ F, initialLoop k [] = F ++ initialLoop (min k 50) [] ∧ (∀ d ∈ F, 100 < d) ∧
      (F ≠ [] → 100 < score F) := by
  induction k with
  | zero => exact ⟨[], rfl, by simp, by simp⟩
  | succ i ih =>
    have hi : i < 2147483648 := Nat.lt_of_succ_le hk
    rcases Nat.lt_or_ge i 50 with h50 | h50
    · refine ⟨[], ?_, by simp, by simp⟩
      rw [Nat.min_eq_left (by omega), List.nil_append]
    · obtain ⟨F, hF, hbig, hsc⟩ := ih (Nat.le_of_lt hi)
      rw [Nat.min_eq_right h50] at hF
      refine ⟨width i :: F, ?_, ?_, ?_⟩
      · rw [initialLoop_succ, hF, Nat.min_eq_right (by omega), List.cons_append]
      · intro d hd
        rw [List.mem_cons] at hd
        rcases hd with hd | hd
        · rw [hd]; exact width_gt_100 i h50 hi
        · exact hbig d hd
      · intro _
        by_cases hF0 : F = []
        · have hlen := congrArg List.length hF
          rw [hF0, List.nil_append, length_initialLoop, length_initialLoop] at hlen
          rw [hF0, hlen]
          decide
        · rw [score_cons_of_ne_nil _ _ hF0]
          exact hsc hF0

theorem nodup_of_pairwise_gt (l : List Nat) (h : l.Pairwise (· > ·)) : l.Nodup :=
  List.Pairwise.imp (fun hab => Nat.ne_of_gt hab) h

theorem frozen_initialLoop (k : Nat) (hk : k ≤ 2147483648) :
    ∃ F, F.Pairwise (· > ·) ∧ (∀ d ∈ F, 100 < d) ∧ (F ≠ [] → 100 < score F) ∧
      Frozen F ⟨initialLoop k [], [], []⟩ ∧
      initialLoop k [] = F ++ initialLoop (min k 50) [] := by
  obtain ⟨F, hF, hbig, hsc⟩ := initialLoop_split k hk
  have hpw := pairwise_initialLoop k hk
  have hk50 : min k 50 ≤ 50 := Nat.min_le_right _ _
  generalize min k 50 = j at hF hk50
  have hpwj : (initialLoop j []).Pairwise (· > ·) := by
    have h2 := hpw
    rw [hF, List.pairwise_append] at h2
    exact h2.2.1
  have hpwF : F.Pairwise (· > ·) := by
    have h2 := hpw
    rw [hF, List.pairwise_append] at h2
    exact h2.1
  refine ⟨F, hpwF, hbig, hsc, ⟨?_, ?_⟩, hF⟩
  · have hnd := nodup_of_pairwise_gt _ hpw
    generalize initialLoop k [] = l at hnd
    simpa only [diskMultiset, Multiset.coe_add, List.append_nil, Multiset.coe_nodup] using hnd
  · refine ⟨base (initialLoop j []), ?_, ?_, ?_⟩
    · intro p
      cases p
      · simp only [rod, base]
        exact hF
      · simp only [rod, base, List.append_nil]
      · simp only [rod, base, List.append_nil]
    · intro p
      cases p
      · simp only [base]
        exact hpwj
      · exact List.Pairwise.nil
      · exact List.Pairwise.nil
    · intro p d hd
      cases p
      · simp only [base] at hd
        exact initialLoop_small j hk50 d hd
      · simp [base] at hd
      · simp [base] at hd

theorem frozen_initial (DISKS : Nat) :
    ∃ F, F.Pairwise (· > ·) ∧ (∀ d ∈ F, 100 < d) ∧ (F ≠ [] → 100 < score F) ∧
      Frozen F (initial DISKS) ∧
      (initial DISKS).left = F ++ initialLoop (min (initialCount DISKS) 50) [] := by
  obtain ⟨F, h1, h2, h3, h4, h5⟩ :=
    frozen_initialLoop (initialCount DISKS) (initialCount_le DISKS)
  refine ⟨F, h1, h2, h3, ?_, ?_⟩
  · rw [initial_eq]
    exact h4
  · rw [initial_left]
    exact h5

theorem smallestOnTop_of_frozen (F : Rod) (hpw : F.Pairwise (· > ·)) (hbig : ∀ d ∈ F, 100 < d)
    (s : Tower) (h : Frozen F s) : SmallestOnTop s := by
  obtain ⟨hnd, L, hrod, hLpw, hsm⟩ := h
  have hl : s.left = F ++ L Move.left := hrod Move.left
  have hm : s.middle = L Move.middle := hrod Move.middle
  have hr : s.right = L Move.right := hrod Move.right
  refine ⟨?_, ?_, ?_, ?_⟩
  · rw [hl, List.pairwise_append]
    refine ⟨hpw, hLpw Move.left, ?_⟩
    intro a ha b hb
    have h1 := hbig a ha
    have h2 := hsm Move.left b hb
    show b < a
    omega
  · rw [hm]; exact hLpw Move.middle
  · rw [hr]; exact hLpw Move.right
  · simpa only [diskMultiset, Multiset.coe_add, Multiset.coe_nodup] using hnd

/-! ## Histories -/

theorem lastTower_snoc (towers : Towers) (s : Tower) : lastTower (towers ++ [s]) = s := by
  simp [lastTower, List.getD_eq_getElem?_getD]

theorem lastTower_singleton (s : Tower) : lastTower [s] = s :=
  lastTower_snoc [] s

theorem runMoves_nil (towers : Towers) : runMoves towers [] = towers := rfl

theorem runMoves_cons (towers : Towers) (mv : Move × Move) (rest : List (Move × Move)) :
    runMoves towers (mv :: rest) =
      runMoves (towers ++ [makeMove (lastTower towers) mv.1 mv.2]) rest := rfl

theorem runMoves_append (towers : Towers) (a b : List (Move × Move)) :
    runMoves towers (a ++ b) = runMoves (runMoves towers a) b := by
  simp [runMoves, List.foldl_append]

theorem length_runMoves (towers : Towers) (moves : List (Move × Move)) :
    (runMoves towers moves).length = towers.length + moves.length := by
  induction moves generalizing towers with
  | nil => rfl
  | cons mv rest ih =>
    rw [runMoves_cons, ih, List.length_append, List.length_cons, List.length_cons,
      List.length_nil]
    omega

theorem runMoves_eq_append (towers : Towers) (moves : List (Move × Move)) :
    ∃ added, runMoves towers moves = towers ++ added ∧ added.length = moves.length := by
  induction moves generalizing towers with
  | nil => exact ⟨[], by simp [runMoves_nil], rfl⟩
  | cons mv rest ih =>
    obtain ⟨added, h1, h2⟩ := ih (towers ++ [makeMove (lastTower towers) mv.1 mv.2])
    refine ⟨makeMove (lastTower towers) mv.1 mv.2 :: added, ?_, ?_⟩
    · rw [runMoves_cons, h1, List.append_assoc, List.singleton_append]
    · rw [List.length_cons, h2, List.length_cons]

theorem applyMoves_nil (s : Tower) : applyMoves s [] = s := rfl

theorem applyMoves_cons (s : Tower) (mv : Move × Move) (rest : List (Move × Move)) :
    applyMoves s (mv :: rest) = applyMoves (makeMove s mv.1 mv.2) rest := rfl

theorem applyMoves_append (s : Tower) (a b : List (Move × Move)) :
    applyMoves s (a ++ b) = applyMoves (applyMoves s a) b := by
  simp [applyMoves, List.foldl_append]

theorem lastTower_runMoves (towers : Towers) (moves : List (Move × Move)) :
    lastTower (runMoves towers moves) = applyMoves (lastTower towers) moves := by
  induction moves generalizing towers with
  | nil => rfl
  | cons mv rest ih =>
    rw [runMoves_cons, ih, lastTower_snoc, applyMoves_cons]

/-! ## The recursive solver -/

theorem solveRecursively_aux_eq (n : Nat) (towers : Towers) (f t u : Move) :
    _solveRecursively towers n f t u = runMoves towers (recMoves n f t u) := by
  induction n generalizing towers f t u with
  | zero => rfl
  | succ n ih =>
    simp only [_solveRecursively, recMoves]
    rw [ih, ih, runMoves_append, runMoves_append]
    rfl

theorem length_recMoves (n : Nat) (f t u : Move) : (recMoves n f t u).length = 2 ^ n - 1 := by
  induction n generalizing f t u with
  | zero => rfl
  | succ n ih =>
    simp only [recMoves, List.length_append, List.length_singleton, ih]
    have := Nat.one_le_two_pow (n := n)
    rw [pow_succ]
    omega

theorem disks_initial (DISKS : Nat) :
    (initial DISKS).left.length + (initial DISKS).middle.length +
      (initial DISKS).right.length = initialCount DISKS := by
  rw [initial_left, initial_middle, initial_right, length_initialLoop, List.length_nil,
    Nat.add_zero]

theorem solveRecursively_eq (DISKS : Nat) :
    solveRecursively DISKS =
      runMoves [initial DISKS] (recMoves (initialCount DISKS) Move.left Move.middle Move.right) := by
  unfold solveRecursively
  simp only [List.getD_cons_zero]
  rw [solveRecursively_aux_eq, disks_initial]

theorem lastTower_solveRecursively (DISKS : Nat) :
    lastTower (solveRecursively DISKS) =
      applyMoves (initial DISKS) (recMoves (initialCount DISKS) Move.left Move.middle Move.right) := by
  rw [solveRecursively_eq, lastTower_runMoves, lastTower_singleton]

theorem one_ne_two_pow (n : Nat) (h : n ≠ 0) : 1 ≠ 2 ^ n :=
  Nat.ne_of_lt (Nat.one_lt_two_pow h)

theorem initialCount_zero_of_wrap : initialCount 2147483649 = 0 := by
  unfold initialCount toInt
  simp only
  split <;> omega

theorem reachable_left_of_large (DISKS : Nat) (h1 : 51 ≤ DISKS) (h2 : DISKS ≤ 2147483648)
    (moves : List (Move × Move)) :
    ∃ L, (applyMoves (initial DISKS) moves).left = width (DISKS - 1) :: L := by
  obtain ⟨F, _, _, hsc, hfr, hleft⟩ := frozen_initial DISKS
  have hcount := initialCount_eq DISKS h2
  rw [initial_left, hcount] at hleft
  obtain ⟨k, hk⟩ : ∃ k, DISKS = k + 1 := ⟨DISKS - 1, by omega⟩
  rw [Nat.min_eq_right (by omega)] at hleft
  have hF : ∃ F1, F = width (DISKS - 1) :: F1 := by
    cases F with
    | nil =>
      have hlen := congrArg List.length hleft
      rw [List.nil_append, length_initialLoop, length_initialLoop] at hlen
      omega
    | cons x F1 =>
      refine ⟨F1, ?_⟩
      rw [hk, initialLoop_succ, List.cons_append] at hleft
      have hx := (List.cons.inj hleft).1
      rw [hk, Nat.add_sub_cancel, hx]
  obtain ⟨F1, hF1⟩ := hF
  obtain ⟨_, L, hrod, _, _⟩ := frozen_applyMoves F hsc _ moves hfr
  refine ⟨F1 ++ L Move.left, ?_⟩
  have := hrod Move.left
  simp only [rod, base] at this
  rw [this, hF1, List.cons_append]

/-! ## Correctness of the recursion on a stack of movable disks -/

theorem allLegal_append (s : Tower) (a b : List (Move × Move)) :
    AllLegal s (a ++ b) ↔ AllLegal s a ∧ AllLegal (applyMoves s a) b := by
  induction a generalizing s with
  | nil => simp [AllLegal, applyMoves_nil]
  | cons mv rest ih =>
    rw [List.cons_append]
    simp only [AllLegal, applyMoves_cons, ih, and_assoc]

theorem allLegal_singleton (s : Tower) (f u : Move) :
    AllLegal s [(f, u)] ↔ StrictLegal s f u := by
  simp [AllLegal]

theorem makeMove_strictLegal (s : Tower) (f u : Move) (h : StrictLegal s f u) :
    makeMove s f u = setRod (setRod s f (rod s f).dropLast) u (rod s u ++ [top (rod s f)]) :=
  makeMove_legal s f u h.1 h.2.1 (le_of_lt h.2.2)

/-- The recursion of `_solveRecursively` on a stack `T` of `n` disks lying on rod `f`
above `X`, each disk of `T` scoring less than the three rods without `T`: every move is
strictly legal, and in the end `T` lies on rod `u`, the rest being as before. -/
theorem recMoves_spec (n : Nat) : ∀ (s : Tower) (f t u : Move) (X T : Rod),
    f ≠ t → f ≠ u → t ≠ u → rod s f = X ++ T → T.length = n → T.Pairwise (· > ·) →
    (∀ d ∈ T, (d : Int) < score X) → (∀ d ∈ T, (d : Int) < score (rod s t)) →
    (∀ d ∈ T, (d : Int) < score (rod s u)) →
    AllLegal s (recMoves n f t u) ∧
      rod (applyMoves s (recMoves n f t u)) f = X ∧
      rod (applyMoves s (recMoves n f t u)) t = rod s t ∧
      rod (applyMoves s (recMoves n f t u)) u = rod s u ++ T := by
  induction n with
  | zero =>
    intro s f t u X T _ _ _ hrod hlen _ _ _ _
    have hT : T = [] := List.length_eq_zero.mp hlen
    subst hT
    rw [List.append_nil] at hrod
    refine ⟨trivial, hrod, rfl, ?_⟩
    exact (List.append_nil _).symm
  | succ n ih =>
    intro s f t u X T hft hfu htu hrod hlen hpw hX ht hu
    cases T with
    | nil => simp at hlen
    | cons b T1 =>
      have hbX : (b : Int) < score X := hX b (List.mem_cons_self _ _)
      have hb31 : b < 2147483648 := by
        have := score_lt X
        omega
      rw [List.pairwise_cons] at hpw
      obtain ⟨hbT, hpw1⟩ := hpw
      have hlen1 : T1.length = n := by simpa using hlen
      have hrod1 : rod s f = (X ++ [b]) ++ T1 := by
        rw [hrod]; simp
      obtain ⟨hA, hAf, hAu, hAt⟩ := ih s f u t (X ++ [b]) T1 hfu hft (Ne.symm htu) hrod1 hlen1
        hpw1
        (fun d hd => by
          rw [score_snoc _ b hb31]
          have := hbT d hd
          omega)
        (fun d hd => hu d (List.mem_cons_of_mem _ hd))
        (fun d hd => ht d (List.mem_cons_of_mem _ hd))
      have hbu : (b : Int) < score (rod s u) := hu b (List.mem_cons_self _ _)
      have hleg : StrictLegal (applyMoves s (recMoves n f u t)) f u := by
        refine ⟨hfu, ?_, ?_⟩
        · rw [hAf]; simp
        · rw [hAf, hAu, score_snoc _ b hb31]
          exact hbu
      have hmk := makeMove_strictLegal _ f u hleg
      rw [hAf, dropLast_snoc, top_append, hAu] at hmk
      have h2f : rod (makeMove (applyMoves s (recMoves n f u t)) f u) f = X := by
        rw [hmk, rod_setRod_ne _ _ _ _ hfu, rod_setRod_same]
      have h2u : rod (makeMove (applyMoves s (recMoves n f u t)) f u) u = rod s u ++ [b] := by
        rw [hmk, rod_setRod_same]
      have h2t : rod (makeMove (applyMoves s (recMoves n f u t)) f u) t = rod s t ++ T1 := by
        rw [hmk, rod_setRod_ne _ _ _ _ htu, rod_setRod_ne _ _ _ _ (Ne.symm hft), hAt]
      obtain ⟨hB, hBt, hBf, hBu⟩ := ih (makeMove (applyMoves s (recMoves n f u t)) f u)
        t f u (rod s t) T1 (Ne.symm hft) htu hfu h2t hlen1 hpw1
        (fun d hd => ht d (List.mem_cons_of_mem _ hd))
        (fun d hd => by
          rw [h2f]
          exact hX d (List.mem_cons_of_mem _ hd))
        (fun d hd => by
          rw [h2u, score_snoc _ b hb31]
          have := hbT d hd
          omega)
      have happ : applyMoves s (recMoves (n + 1) f t u) =
          applyMoves (makeMove (applyMoves s (recMoves n f u t)) f u) (recMoves n t f u) := by
        simp only [recMoves, applyMoves_append, applyMoves_cons, applyMoves_nil]
      rw [happ]
      refine ⟨?_, ?_, ?_, ?_⟩
      · simp only [recMoves]
        rw [allLegal_append, allLegal_append, allLegal_singleton, applyMoves_append]
        exact ⟨⟨hA, hleg⟩, hB⟩
      · rw [hBf, h2f]
      · exact hBt
      · rw [hBu, h2u]; simp

theorem score_initialLoop_bound (N : Nat) (hN : N ≤ 50) :
    ∀ d ∈ initialLoop N [], (d : Int) < score [] := by
  intro d hd
  have := initialLoop_small N hN d hd
  rw [score_nil]
  omega

/-- For at most 50 disks the moves of the recursive solver are all strictly legal and
lead from the initial tower to the goal tower. -/
theorem recMoves_initial (N : Nat) (hN : N ≤ 50) :
    AllLegal (initial N) (recMoves N Move.left Move.middle Move.right) ∧
      applyMoves (initial N) (recMoves N Move.left Move.middle Move.right) = goal N := by
  have hc := initialCount_eq N (by omega)
  have hi : initial N = ⟨initialLoop N [], [], []⟩ := by rw [initial_eq, hc]
  have hb := score_initialLoop_bound N hN
  obtain ⟨h1, h2, h3, h4⟩ := recMoves_spec N (initial N) Move.left Move.middle Move.right []
    (initialLoop N []) (by decide) (by decide) (by decide)
    (by rw [hi]; rfl) (length_initialLoop N) (pairwise_initialLoop N (by omega)) hb
    (by rw [hi]; exact hb) (by rw [hi]; exact hb)
  refine ⟨h1, ?_⟩
  apply tower_ext_rod
  intro p
  cases p
  · rw [h2]; rfl
  · rw [h3, hi]; rfl
  · rw [h4]
    unfold goal
    rw [hi]
    rfl

/-- With 51 disks, the tower with the widest disk alone on the left rod, the 50 others on
the middle rod and the right rod empty is reached from the initial tower by `makeMove`
calls. -/
theorem reachable_widest_alone :
    applyMoves (initial 51) (recMoves 50 Move.left Move.right Move.middle) =
      ⟨[101], (initial 50).left, []⟩ := by
  have hT : (initial 50).left = initialLoop 50 [] := by
    rw [initial_left, initialCount_eq 50 (by decide)]
  have hb := score_initialLoop_bound 50 (by decide)
  have hs : initial 51 = ⟨[101] ++ initialLoop 50 [], [], []⟩ := by decide
  obtain ⟨_, h2, h3, h4⟩ := recMoves_spec 50 (initial 51) Move.left Move.right Move.middle
    [101] (initialLoop 50 []) (by decide) (by decide) (by decide)
    (by rw [hs]; rfl) (length_initialLoop 50) (pairwise_initialLoop 50 (by decide))
    (fun d hd => by
      have := initialLoop_small 50 (by decide) d hd
      have h101 : score [101] = 101 := by decide
      rw [h101]
      omega)
    (by rw [hs]; exact hb) (by rw [hs]; exact hb)
  apply tower_ext_rod
  intro p
  cases p
  · rw [h2]; rfl
  · rw [h4, hs, hT]; rfl
  · rw [h3, hs]; rfl

/-! ## The iterative solver -/

/-- Closed form of `_solveIteratively`. -/
theorem solveIteratively_aux_eq (towers : Towers) (p q : Move) :
    _solveIteratively towers p q =
      if rod (lastTower towers) p = [] then towers ++ [makeMove (lastTower towers) q p]
      else if rod (lastTower towers) q = [] then towers ++ [makeMove (lastTower towers) p q]
      else if p ≠ q ∧ score (rod (lastTower towers) p) > score (rod (lastTower towers) q) then
        towers ++ [makeMove (lastTower towers) q p]
      else towers ++ [makeMove (lastTower towers) p q] := by
  cases p <;> cases q <;>
    simp only [_solveIteratively, rod, List.length_eq_zero, reduceCtorEq, true_and, false_and,
      or_false, false_or, if_true, if_false, ne_eq, not_true_eq_false, not_false_eq_true,
      or_self]

theorem length_solveIteratively_aux (towers : Towers) (p q : Move) :
    (_solveIteratively towers p q).length = towers.length + 1 := by
  rw [solveIteratively_aux_eq]
  split_ifs <;> simp

/-- On a pair of rods between which a strictly legal move exists, `_solveIteratively`
appends the result of that move, whichever way round the pair is given. -/
theorem solveIteratively_aux_step (towers : Towers) (c mv : Move × Move) (hc : SameRods c mv)
    (hl : StrictLegal (lastTower towers) mv.1 mv.2) :
    _solveIteratively towers c.1 c.2 = towers ++ [makeMove (lastTower towers) mv.1 mv.2] := by
  obtain ⟨hne, hf, hlt⟩ := hl
  rw [solveIteratively_aux_eq]
  rcases hc with h | h
  · subst h
    rw [if_neg hf]
    by_cases h1 : rod (lastTower towers) c.2 = []
    · rw [if_pos h1]
    · rw [if_neg h1, if_neg (fun h => absurd h.2 (not_lt.mpr (le_of_lt hlt)))]
  · subst h
    simp only
    by_cases h1 : rod (lastTower towers) mv.2 = []
    · rw [if_pos h1]
    · rw [if_neg h1, if_neg hf, if_pos ⟨Ne.symm hne, hlt⟩]

theorem emod_three_cases (i : Int) : i % 3 = 0 ∨ i % 3 = 1 ∨ i % 3 = 2 := by
  omega

theorem solveIterativelyBody_eq (even : Bool) (i : Int) (towers : Towers) :
    solveIterativelyBody even i towers =
      _solveIteratively towers (cand even Move.left Move.middle Move.right i).1
        (cand even Move.left Move.middle Move.right i).2 := by
  unfold solveIterativelyBody cand
  rcases emod_three_cases i with h | h | h <;> cases even <;> simp [h]

theorem length_solveIterativelyLoop (even : Bool) (k : Nat) (i : Int) (towers : Towers) :
    (solveIterativelyLoop even k i towers).length = towers.length + k := by
  induction k generalizing i towers with
  | zero => rfl
  | succ k ih =>
    simp only [solveIterativelyLoop]
    rw [ih, solveIterativelyBody_eq, length_solveIteratively_aux]
    omega

/-- When the pairs chosen by the loop follow a list of strictly legal moves, the loop
builds the history of these moves. -/
theorem solveIterativelyLoop_eq_runMoves (even : Bool) (moves : List (Move × Move)) :
    ∀ (towers : Towers) (i : Int), AllLegal (lastTower towers) moves →
      Follows (cand even Move.left Move.middle Move.right) i moves →
      solveIterativelyLoop even moves.length i towers = runMoves towers moves := by
  induction moves with
  | nil =>
    intro towers i _ _
    rfl
  | cons mv rest ih =>
    intro towers i hl hf
    obtain ⟨hl1, hl2⟩ := hl
    obtain ⟨hf1, hf2⟩ := hf
    simp only [List.length_cons, solveIterativelyLoop]
    rw [solveIterativelyBody_eq, solveIteratively_aux_step towers _ mv hf1 hl1, runMoves_cons]
    apply ih
    · rw [lastTower_snoc]
      exact hl2
    · exact hf2

theorem sameRods_refl (p : Move × Move) : SameRods p p := Or.inl rfl

theorem sameRods_trans (p q r : Move × Move) (h1 : SameRods p q) (h2 : SameRods q r) :
    SameRods p r := by
  unfold SameRods at *
  rcases h1 with h1 | h1 <;> rcases h2 with h2 | h2 <;> subst h1 <;> subst h2 <;> simp

theorem follows_append (c : Int → Move × Move) (a b : List (Move × Move)) (i : Int) :
    Follows c i (a ++ b) ↔ Follows c i a ∧ Follows c (i + a.length) b := by
  induction a generalizing i with
  | nil => simp [Follows]
  | cons mv rest ih =>
    rw [List.cons_append]
    simp only [Follows, ih, List.length_cons, and_assoc, Nat.cast_add, Nat.cast_one]
    have h : i + 1 + (rest.length : Int) = i + ((rest.length : Int) + 1) := by omega
    rw [h]

theorem par_succ (n : Nat) : par (n + 1) = !par n := by
  unfold par
  rcases Nat.mod_two_eq_zero_or_one n with h | h <;> simp [h, Nat.add_mod]

theorem two_pow_emod_three (n : Nat) : (2 : Int) ^ n % 3 = if par n then 1 else 2 := by
  induction n with
  | zero => rfl
  | succ n ih =>
    rw [par_succ, pow_succ]
    cases hp : par n <;> simp only [hp, if_true, if_false, Bool.not_true, Bool.not_false,
      Bool.false_eq_true] at ih ⊢ <;> omega

theorem cand_swap_roles (e : Bool) (f t u : Move) (j : Int) :
    cand (!e) f t u j = cand e f u t j := by
  unfold cand
  rcases emod_three_cases j with h | h | h <;> cases e <;> simp [h]

theorem cand_mid (e : Bool) (f t u : Move) (pw : Int) (hp : pw % 3 = if e then 1 else 2) :
    cand (!e) f t u pw = (f, u) := by
  unfold cand
  cases e <;> simp at hp <;> simp [hp]

theorem cand_shift (e : Bool) (f t u : Move) (pw j : Int) (hp : pw % 3 = if e then 1 else 2) :
    SameRods (cand (!e) f t u (pw + j)) (cand e t f u j) := by
  unfold cand SameRods
  cases e <;> simp only [Bool.false_eq_true, if_false, if_true] at hp <;>
    rcases emod_three_cases j with h | h | h
  · have h2 : (pw + j) % 3 = 2 := by omega
    simp [h, h2]
  · have h2 : (pw + j) % 3 = 0 := by omega
    simp [h, h2]
  · have h2 : (pw + j) % 3 = 1 := by omega
    simp [h, h2]
  · have h2 : (pw + j) % 3 = 1 := by omega
    simp [h, h2]
  · have h2 : (pw + j) % 3 = 2 := by omega
    simp [h, h2]
  · have h2 : (pw + j) % 3 = 0 := by omega
    simp [h, h2]

theorem cast_length_recMoves (n : Nat) (f t u : Move) :
    ((recMoves n f t u).length : Int) = 2 ^ n - 1 := by
  rw [length_recMoves]
  have := Nat.one_le_two_pow (n := n)
  rw [Nat.cast_sub this]
  simp

/-- The pairs of `_solveRecursively` for `n` disks are, up to order, those that the
`switch (i % 3)` selects for a disk count of the same parity. -/
theorem follows_recMoves (n : Nat) : ∀ (f t u : Move) (c : Int → Move × Move) (i0 : Int),
    (∀ j, SameRods (c (i0 + j)) (cand (par n) f t u j)) →
    Follows c (i0 + 1) (recMoves n f t u) := by
  induction n with
  | zero =>
    intro f t u c i0 _
    trivial
  | succ n ih =>
    intro f t u c i0 h
    simp only [recMoves]
    rw [follows_append, follows_append]
    refine ⟨⟨?_, ?_⟩, ?_⟩
    · apply ih f u t c i0
      intro j
      have := h j
      rw [par_succ, cand_swap_roles] at this
      exact this
    · simp only [Follows, and_true]
      rw [cast_length_recMoves]
      have := h (2 ^ n)
      rw [par_succ, cand_mid _ f t u _ (two_pow_emod_three n)] at this
      have he : i0 + 1 + (2 ^ n - 1) = i0 + (2 : Int) ^ n := by omega
      rw [he]
      exact this
    · rw [List.length_append, List.length_singleton, Nat.cast_add, cast_length_recMoves]
      have he : i0 + 1 + ((2 : Int) ^ n - 1 + ((1 : Nat) : Int)) = (i0 + 2 ^ n) + 1 := by
        simp only [Nat.cast_one]
        omega
      rw [he]
      apply ih t f u c (i0 + 2 ^ n)
      intro j
      have := h (2 ^ n + j)
      rw [par_succ] at this
      have hs := cand_shift (par n) f t u (2 ^ n) j (two_pow_emod_three n)
      have he2 : i0 + 2 ^ n + j = i0 + ((2 : Int) ^ n + j) := by omega
      rw [he2]
      exact sameRods_trans _ _ _ this hs

theorem iterMoves_eq (N : Nat) (h1 : 1 ≤ N) (h2 : N ≤ 30) :
    iterMoves N = some ((2 : Int) ^ N - 1) := by
  interval_cases N <;> rfl

theorem two_pow_le_of_le_30 (N : Nat) (h : N ≤ 30) : (2 : Int) ^ N ≤ 1073741824 := by
  have h1 : (2 : Int) ^ N ≤ 2 ^ 30 := pow_le_pow_right₀ (by decide) h
  have h2 : (2 : Int) ^ 30 = 1073741824 := by decide
  rw [h2] at h1
  exact h1

theorem toNat_two_pow_sub_one (N : Nat) (f t u : Move) :
    ((2 : Int) ^ N - 1).toNat = (recMoves N f t u).length := by
  rw [← cast_length_recMoves N f t u]
  exact Int.toNat_natCast _

/-- For 1 to 30 disks the iterative solver returns the history of the recursive solver. -/
theorem solveIteratively_eq_solveRecursively (N : Nat) (h1 : 1 ≤ N) (h2 : N ≤ 30) :
    solveIteratively N = some (solveRecursively N) := by
  have hc := initialCount_eq N (by omega)
  have hd := disks_initial N
  rw [hc] at hd
  have hrec := solveRecursively_eq N
  rw [hc] at hrec
  have hlt : (2 : Int) ^ N - 1 < 2147483647 := by
    have := two_pow_le_of_le_30 N h2
    omega
  have hleg := (recMoves_initial N (by omega)).1
  have hfol : Follows (cand (par N) Move.left Move.middle Move.right) (0 + 1)
      (recMoves N Move.left Move.middle Move.right) :=
    follows_recMoves N Move.left Move.middle Move.right _ 0 (fun j => by
      rw [zero_add]
      exact sameRods_refl _)
  rw [zero_add] at hfol
  have hloop := solveIterativelyLoop_eq_runMoves (par N)
    (recMoves N Move.left Move.middle Move.right) [initial N] 1
    (by rw [lastTower_singleton]; exact hleg) hfol
  unfold solveIteratively
  simp only [List.getD_cons_zero, hd, iterMoves_eq N h1 h2, if_pos hlt]
  rw [toNat_two_pow_sub_one N Move.left Move.middle Move.right, hrec]
  exact congrArg some hloop

/-! ## The mutually recursive solver -/

theorem solveMutuallyRecursively_aux_eq (n : Nat) : ∀ (towers : Towers) (f t u : Move),
    _solveMutuallyRecursivelyA towers n f t u = _solveRecursively towers n f t u ∧
    _solveMutuallyRecursivelyB towers n f t u = _solveRecursively towers n f t u := by
  induction n with
  | zero =>
    intro towers f t u
    exact ⟨rfl, rfl⟩
  | succ n ih =>
    intro towers f t u
    simp only [_solveMutuallyRecursivelyA, _solveMutuallyRecursivelyB, _solveRecursively]
    rw [(ih towers f u t).1, (ih _ t f u).2]
    exact ⟨rfl, rfl⟩

theorem solveMutuallyRecursively_eq (DISKS : Nat) :
    solveMutuallyRecursively DISKS = solveRecursively DISKS := by
  unfold solveMutuallyRecursively solveRecursively
  exact (solveMutuallyRecursively_aux_eq _ _ _ _ _).1

theorem sameHistory_of_eq (a b : Towers) (h : a = b) : SameHistory a b := by
  subst h
  exact ⟨rfl, fun i _ => (areEqual_iff _ _).mpr rfl⟩

/-! ## The reference recursion of the specification -/

theorem hanoiSpec_eq (n : Nat) : ∀ (towers : Towers) (source target auxiliary : Move),
    hanoiSpec towers n source target auxiliary =
      _solveRecursively towers n source auxiliary target := by
  induction n with
  | zero =>
    intro towers source target auxiliary
    rfl
  | succ n ih =>
    intro towers source target auxiliary
    simp only [hanoiSpec, _solveRecursively]
    rw [ih towers source auxiliary target, ih _ auxiliary target source]

/-! ## The widths built by `initial` -/

theorem oddWidths_succ (k : Nat) : oddWidths (k + 1) = (2 * k + 1) :: oddWidths k := by
  unfold oddWidths
  rw [List.range_succ, List.reverse_append, List.reverse_singleton, List.singleton_append,
    List.map_cons]

theorem length_oddWidths (N : Nat) : (oddWidths N).length = N := by
  simp [oddWidths]

theorem initialLoop_eq_oddWidths (k : Nat) (hk : k ≤ 1073741824) :
    initialLoop k [] = oddWidths k := by
  induction k with
  | zero => rfl
  | succ i ih =>
    have hi : i < 1073741824 := Nat.lt_of_succ_le hk
    rw [initialLoop_succ, oddWidths_succ, ih (Nat.le_of_lt hi), width_small i hi]

theorem initial_eq_oddWidths (N : Nat) (hN : N ≤ 1073741824) :
    initial N = ⟨oddWidths N, [], []⟩ := by
  rw [initial_eq, initialCount_eq N (Nat.le_trans hN (by decide)),
    initialLoop_eq_oddWidths N hN]

theorem getLast_oddWidths (k : Nat) : (oddWidths (k + 1)).getLast? = some 1 := by
  induction k with
  | zero => rfl
  | succ k ih =>
    rw [oddWidths_succ, oddWidths_succ]
    rw [oddWidths_succ] at ih
    rw [List.getLast?_cons_cons]
    exact ih

theorem head_initial_overflow (k : Nat) (h1 : 1073741824 ≤ k) (h2 : k < 2147483648) :
    (initial (k + 1)).left.head? = some (2 * k + 1 + 18446744069414584320) := by
  rw [initial_left, initialCount_eq (k + 1) (Nat.succ_le_of_lt h2), initialLoop_succ,
    List.head?_cons, width_large k h1 h2]

/-! ## Accepted moves change the tower -/

theorem areEqual_makeMove_accepted (s : Tower) (f t : Move) (hne : f ≠ t) (hf : rod s f ≠ [])
    (hs : score (rod s f) ≤ score (rod s t)) : areEqual (makeMove s f t) s = false := by
  cases h : areEqual (makeMove s f t) s with
  | false => rfl
  | true =>
    exfalso
    have heq := (areEqual_iff _ _).mp h
    have hrod := congrArg (fun x => (rod x f).length) heq
    simp only [makeMove_legal s f t hne hf hs, rod_setRod_ne _ _ _ _ hne,
      rod_setRod_same, List.length_dropLast] at hrod
    have : (rod s f).length ≠ 0 := fun h0 => hf (List.length_eq_zero.mp h0)
    omega

theorem areEqual_makeMove_strictLegal (s : Tower) (f u : Move) (h : StrictLegal s f u) :
    areEqual (makeMove s f u) s = false :=
  areEqual_makeMove_accepted s f u h.1 h.2.1 (le_of_lt h.2.2)

theorem makeMove_rejected (s : Tower) (f t : Move) (h : Rejected s f t) : makeMove s f t = s :=
  makeMove_illegal s f t h

theorem towers_eq_dropLast_lastTower (towers : Towers) (h : towers ≠ []) :
    towers = towers.dropLast ++ [lastTower towers] := by
  rcases List.eq_nil_or_concat towers with h0 | ⟨r, d, h1⟩
  · exact absurd h0 h
  · have h2 : towers = r ++ [d] := by simpa using h1
    rw [h2, lastTower_snoc, List.dropLast_concat]

theorem getLast_eq_lastTower (towers : Towers) (h : towers ≠ []) :
    towers.getLast? = some (lastTower towers) := by
  have h1 := towers_eq_dropLast_lastTower towers h
  rw [h1, List.getLast?_concat, lastTower_snoc]

theorem noRepeat_iff_chain (towers : Towers) :
    NoRepeat towers ↔ List.Chain' (fun a b => areEqual b a = false) towers := by
  unfold NoRepeat
  induction towers with
  | nil => simp [noRepeatCheck]
  | cons a rest ih =>
    cases rest with
    | nil => simp [noRepeatCheck]
    | cons b rest1 =>
      rw [List.chain'_cons, ← ih]
      simp [noRepeatCheck]

theorem noRepeat_singleton (s : Tower) : NoRepeat [s] := rfl

theorem noRepeat_snoc (towers : Towers) (s : Tower) (h : NoRepeat towers) (hne : towers ≠ [])
    (hs : areEqual s (lastTower towers) = false) : NoRepeat (towers ++ [s]) := by
  rw [noRepeat_iff_chain] at *
  apply List.Chain'.append h (List.chain'_singleton s)
  intro x hx y hy
  rw [getLast_eq_lastTower towers hne] at hx
  simp only [Option.mem_def, Option.some.injEq, List.head?_cons] at hx hy
  subst hx
  subst hy
  exact hs

theorem runMoves_ne_nil (towers : Towers) (moves : List (Move × Move)) (h : towers ≠ []) :
    runMoves towers moves ≠ [] := by
  intro h0
  have := length_runMoves towers moves
  rw [h0, List.length_nil] at this
  have : towers.length = 0 := by omega
  exact h (List.length_eq_zero.mp this)

/-- A history extended by strictly legal moves never repeats a tower. -/
theorem noRepeat_runMoves (moves : List (Move × Move)) : ∀ (towers : Towers),
    NoRepeat towers → towers ≠ [] → AllLegal (lastTower towers) moves →
    NoRepeat (runMoves towers moves) := by
  induction moves with
  | nil =>
    intro towers h _ _
    exact h
  | cons mv rest ih =>
    intro towers h hne hl
    obtain ⟨hl1, hl2⟩ := hl
    rw [runMoves_cons]
    apply ih
    · exact noRepeat_snoc towers _ h hne (areEqual_makeMove_strictLegal _ _ _ hl1)
    · simp
    · rw [lastTower_snoc]
      exact hl2

/-- Every tower of a history extended by `makeMove` calls is reached from the first tower
of the history by a sequence of `makeMove` calls when those before it are. -/
theorem mem_runMoves (s0 : Tower) (moves : List (Move × Move)) : ∀ (towers : Towers),
    towers ≠ [] → (∀ s ∈ towers, ∃ ms, s = applyMoves s0 ms) →
    ∀ s ∈ runMoves towers moves, ∃ ms, s = applyMoves s0 ms := by
  induction moves with
  | nil =>
    intro towers _ h s hs
    exact h s hs
  | cons mv rest ih =>
    intro towers hne h
    rw [runMoves_cons]
    apply ih
    · simp
    · intro s hs
      rw [List.mem_append, List.mem_singleton] at hs
      rcases hs with hs | hs
      · exact h s hs
      · have hlast : lastTower towers ∈ towers :=
          List.mem_of_mem_getLast? (getLast_eq_lastTower towers hne)
        obtain ⟨ms, hms⟩ := h _ hlast
        refine ⟨ms ++ [mv], ?_⟩
        rw [hs, applyMoves_append, ← hms]
        rfl

theorem mem_solveRecursively (DISKS : Nat) (s : Tower) (hs : s ∈ solveRecursively DISKS) :
    ∃ ms, s = applyMoves (initial DISKS) ms := by
  rw [solveRecursively_eq] at hs
  apply mem_runMoves (initial DISKS) _ [initial DISKS] (by simp) _ s hs
  intro s1 hs1
  rw [List.mem_singleton] at hs1
  exact ⟨[], by rw [hs1]; rfl⟩

/-! ## One step of the iterative solver -/

theorem allBelow_rod (bound : Nat) (s : Tower) (h : AllBelow bound s) (p : Move) :
    ∀ d ∈ rod s p, d < bound := by
  cases p
  · exact h.1
  · exact h.2.1
  · exact h.2.2

theorem solveIteratively_aux_progress (towers : Towers) (p q : Move)
    (hsmall : AllBelow 100 (lastTower towers)) (hpq : p ≠ q)
    (hnb : ¬ (rod (lastTower towers) p = [] ∧ rod (lastTower towers) q = [])) :
    ∃ a b, ((a = p ∧ b = q) ∨ (a = q ∧ b = p)) ∧ rod (lastTower towers) a ≠ [] ∧
      score (rod (lastTower towers) a) ≤ score (rod (lastTower towers) b) ∧
      _solveIteratively towers p q = towers ++ [makeMove (lastTower towers) a b] ∧
      areEqual (makeMove (lastTower towers) a b) (lastTower towers) = false := by
  have key : ∀ a b, a ≠ b → rod (lastTower towers) a ≠ [] →
      score (rod (lastTower towers) a) ≤ score (rod (lastTower towers) b) →
      ((a = p ∧ b = q) ∨ (a = q ∧ b = p)) →
      _solveIteratively towers p q = towers ++ [makeMove (lastTower towers) a b] →
      ∃ a b, ((a = p ∧ b = q) ∨ (a = q ∧ b = p)) ∧ rod (lastTower towers) a ≠ [] ∧
        score (rod (lastTower towers) a) ≤ score (rod (lastTower towers) b) ∧
        _solveIteratively towers p q = towers ++ [makeMove (lastTower towers) a b] ∧
        areEqual (makeMove (lastTower towers) a b) (lastTower towers) = false :=
    fun a b hab ha hs hor he =>
      ⟨a, b, hor, ha, hs, he, areEqual_makeMove_accepted _ a b hab ha hs⟩
  by_cases hp : rod (lastTower towers) p = []
  · have hq : rod (lastTower towers) q ≠ [] := fun h => hnb ⟨hp, h⟩
    refine key q p (Ne.symm hpq) hq ?_ (Or.inr ⟨rfl, rfl⟩) (by rw [solveIteratively_aux_eq, if_pos hp])
    rw [hp, score_nil]
    exact score_le_of_small _ (allBelow_rod 100 _ hsmall q)
  · by_cases hq : rod (lastTower towers) q = []
    · refine key p q hpq hp ?_ (Or.inl ⟨rfl, rfl⟩) (by rw [solveIteratively_aux_eq, if_neg hp, if_pos hq])
      rw [hq, score_nil]
      exact score_le_of_small _ (allBelow_rod 100 _ hsmall p)
    · by_cases hgt : score (rod (lastTower towers) p) > score (rod (lastTower towers) q)
      · exact key q p (Ne.symm hpq) hq (le_of_lt hgt) (Or.inr ⟨rfl, rfl⟩)
          (by rw [solveIteratively_aux_eq, if_neg hp, if_neg hq, if_pos ⟨hpq, hgt⟩])
      · exact key p q hpq hp (not_lt.mp hgt) (Or.inl ⟨rfl, rfl⟩)
          (by rw [solveIteratively_aux_eq, if_neg hp, if_neg hq, if_neg (fun h => hgt h.2)])

/-! ## One step of the manual solver -/

theorem solveManuallyStep_rejected (DISKS : Nat) (towers : Towers) (f t : Move)
    (h : Rejected (lastTower towers) f t) : (solveManuallyStep DISKS towers f t).1 = towers := by
  unfold solveManuallyStep
  simp only [makeMove_rejected _ f t h, (areEqual_iff _ _).mpr rfl, Bool.not_true,
    Bool.false_eq_true, if_false]

theorem solveManuallyStep_accepted (DISKS : Nat) (towers : Towers) (f t : Move)
    (h : ¬ Rejected (lastTower towers) f t) :
    (solveManuallyStep DISKS towers f t).1 = towers ++ [makeMove (lastTower towers) f t] := by
  unfold Rejected at h
  simp only [not_or, not_lt] at h
  unfold solveManuallyStep
  simp only [areEqual_makeMove_accepted _ f t h.1 h.2.1 h.2.2, Bool.not_false, if_true]

/-! ## A disk that scores more than an empty rod -/

theorem score_lt_of_all_lt (R : Rod) (b : Nat) (hb : 100 < b) (hb31 : b < 2147483648)
    (h : ∀ d ∈ R, d < b) : score R < (b : Int) := by
  rcases rod_cases R with h0 | ⟨a, e, ha⟩
  · rw [h0, score_nil]
    omega
  · have he : e < b := h e (by rw [ha]; simp)
    rw [ha, score_snoc a e (by omega)]
    omega

theorem left_eq_rod (s : Tower) : s.left = rod s Move.left := rfl

theorem bottom_disk_stays (s : Tower) (b : Nat) (rest : Rod) (hleft : s.left = b :: rest)
    (hb : 100 < b) (hb31 : b < 2147483648) (hw : ∀ d ∈ rest ++ s.middle ++ s.right, d < b)
    (f t : Move) :
    ∃ rest1, (makeMove s f t).left = b :: rest1 ∧
      ∀ d ∈ rest1 ++ (makeMove s f t).middle ++ (makeMove s f t).right, d < b := by
  have hfirst : ∃ rest1, (makeMove s f t).left = b :: rest1 := by
    rw [makeMove_eq]
    split
    · exact ⟨rest, hleft⟩
    · rename_i hc
      simp only [not_or, not_lt] at hc
      obtain ⟨hne, hf, hs⟩ := hc
      rw [left_eq_rod]
      by_cases ht : Move.left = t
      · subst ht
        rw [rod_setRod_same, ← left_eq_rod, hleft]
        exact ⟨rest ++ [top (rod s f)], rfl⟩
      · by_cases hfl : Move.left = f
        · subst hfl
          rw [rod_setRod_ne _ _ _ _ ht, rod_setRod_same, ← left_eq_rod, hleft]
          have hrest : rest ≠ [] := by
            intro h0
            rw [← left_eq_rod, hleft, h0] at hs
            have h1 : score [b] = (b : Int) := score_snoc [] b hb31
            rw [h1] at hs
            have h2 : score (rod s t) < (b : Int) := by
              apply score_lt_of_all_lt _ b hb hb31
              intro d hd
              apply hw d
              cases t with
              | left => exact absurd rfl ht
              | middle => simp only [rod] at hd; simp [hd]
              | right => simp only [rod] at hd; simp [hd]
            omega
          exact ⟨rest.dropLast, List.dropLast_cons_of_ne_nil hrest⟩
        · rw [rod_setRod_ne _ _ _ _ ht, rod_setRod_ne _ _ _ _ hfl, ← left_eq_rod, hleft]
          exact ⟨rest, rfl⟩
  obtain ⟨rest1, h1⟩ := hfirst
  refine ⟨rest1, h1, ?_⟩
  have hm := diskMultiset_makeMove s f t
  unfold diskMultiset at hm
  rw [h1, hleft] at hm
  simp only [Multiset.coe_add, Multiset.coe_eq_coe, List.cons_append] at hm
  have hp := List.Perm.cons_inv hm
  intro d hd
  exact hw d (hp.subset hd)

theorem ne_goal_of_left_ne_nil (DISKS : Nat) (s : Tower) (x : Nat) (L : Rod)
    (h : s.left = x :: L) : s ≠ goal DISKS := by
  intro hg
  rw [hg] at h
  exact absurd h (by simp [goal])

theorem reachable_ne_goal (N : Nat) (h1 : 51 ≤ N) (h2 : N ≤ 2147483648)
    (moves : List (Move × Move)) : applyMoves (initial N) moves ≠ goal N := by
  obtain ⟨L, hL⟩ := reachable_left_of_large N h1 h2 moves
  exact ne_goal_of_left_ne_nil N _ _ L hL

theorem solveManuallyStep_won (DISKS : Nat) (towers : Towers) (f t : Move) :
    (solveManuallyStep DISKS towers f t).2 =
      areEqual (makeMove (lastTower towers) f t) (goal DISKS) := rfl

theorem lastTower_solveManuallyStep (DISKS : Nat) (towers : Towers) (f t : Move) :
    lastTower (solveManuallyStep DISKS towers f t).1 = lastTower towers ∨
    lastTower (solveManuallyStep DISKS towers f t).1 = makeMove (lastTower towers) f t := by
  by_cases h : Rejected (lastTower towers) f t
  · left
    rw [solveManuallyStep_rejected DISKS towers f t h]
  · right
    rw [solveManuallyStep_accepted DISKS towers f t h, lastTower_snoc]

/-- With 51 disks or more the manual session never reaches `won`. -/
theorem solveManuallyLoop_none (N : Nat) (h1 : 51 ≤ N) (h2 : N ≤ 2147483648)
    (inputs : List (Move × Move)) : ∀ (towers : Towers),
    (∃ ms, lastTower towers = applyMoves (initial N) ms) →
    solveManuallyLoop N inputs towers = none := by
  induction inputs with
  | nil =>
    intro towers _
    rfl
  | cons mv rest ih =>
    intro towers hreach
    obtain ⟨ms, hms⟩ := hreach
    have hnext : makeMove (lastTower towers) mv.1 mv.2 = applyMoves (initial N) (ms ++ [mv]) := by
      rw [applyMoves_append, ← hms]
      rfl
    have hwon : (solveManuallyStep N towers mv.1 mv.2).2 = false := by
      rw [solveManuallyStep_won]
      cases hc : areEqual (makeMove (lastTower towers) mv.1 mv.2) (goal N) with
      | false => rfl
      | true =>
        exfalso
        have := (areEqual_iff _ _).mp hc
        rw [hnext] at this
        exact reachable_ne_goal N h1 h2 _ this
    simp only [solveManuallyLoop, hwon, Bool.false_eq_true, if_false]
    apply ih
    rcases lastTower_solveManuallyStep N towers mv.1 mv.2 with h | h
    · exact ⟨ms, by rw [h, hms]⟩
    · exact ⟨ms ++ [mv], by rw [h, hnext]⟩

theorem iterMoves_none (N : Nat) (h1 : 33 ≤ N) (h2 : N ≤ 2147483648) : iterMoves N = none := by
  unfold iterMoves shiftLeftTwo
  have hc : (18446744073709551615 + N) % 18446744073709551616 = N - 1 := by omega
  rw [hc, if_neg (by omega)]
  rfl

theorem solveIteratively_none (N : Nat) (h1 : 33 ≤ N) (h2 : N ≤ 2147483648) :
    solveIteratively N = none := by
  have hd := disks_initial N
  rw [initialCount_eq N h2] at hd
  unfold solveIteratively
  simp only [List.getD_cons_zero, hd, iterMoves_none N h1 h2]

/-! ## Repeated towers in the history for 51 disks -/

theorem not_noRepeat_of_rejected (towers : Towers) (rest : List (Move × Move)) (f u : Move)
    (hne : towers ≠ []) (hrej : makeMove (lastTower towers) f u = lastTower towers) :
    ¬ NoRepeat (runMoves towers ((f, u) :: rest)) := by
  intro h
  rw [noRepeat_iff_chain, runMoves_cons] at h
  obtain ⟨added, ha, _⟩ := runMoves_eq_append
    (towers ++ [makeMove (lastTower towers) (f, u).1 (f, u).2]) rest
  rw [ha] at h
  have h1 := List.Chain'.left_of_append h
  rw [towers_eq_dropLast_lastTower towers hne, lastTower_snoc, List.append_assoc] at h1
  have h2 := List.Chain'.right_of_append h1
  simp only [List.singleton_append, List.chain'_cons, List.chain'_singleton, and_true] at h2
  rw [hrej, (areEqual_iff _ _).mpr rfl] at h2
  exact absurd h2 (by decide)

theorem recMoves_succ (n : Nat) (f t u : Move) :
    recMoves (n + 1) f t u = recMoves n f u t ++ [(f, u)] ++ recMoves n t f u := rfl

theorem length_hanoiSpec_ne (n : Nat) (hn : n ≠ 0) (towers : Towers)
    (source target auxiliary : Move) :
    towers.length ≠ (hanoiSpec towers n source target auxiliary).length := by
  rw [hanoiSpec_eq, solveRecursively_aux_eq, length_runMoves, length_recMoves]
  have := Nat.one_lt_two_pow hn
  omega

theorem length_solveRecursively (N : Nat) (hN : N ≤ 2147483648) :
    (solveRecursively N).length = 2 ^ N := by
  have hpos := Nat.one_le_two_pow (n := N)
  rw [solveRecursively_eq, initialCount_eq N hN, length_runMoves, length_recMoves,
    List.length_singleton]
  omega

theorem solveRecursively_eq_hanoiSpec (N : Nat) (hN : N ≤ 2147483648) :
    solveRecursively N = hanoiSpec [initial N] N Move.left Move.right Move.middle := by
  rw [hanoiSpec_eq, solveRecursively_aux_eq, solveRecursively_eq, initialCount_eq N hN]

theorem not_noRepeat_solveRecursively_51 : ¬ NoRepeat (solveRecursively 51) := by
  have h51 : recMoves 51 Move.left Move.middle Move.right =
      recMoves 50 Move.left Move.right Move.middle ++
        ((Move.left, Move.right) :: recMoves 50 Move.middle Move.left Move.right) := by
    rw [recMoves_succ 50 Move.left Move.middle Move.right, List.append_assoc,
      List.singleton_append]
  rw [solveRecursively_eq, initialCount_eq 51 (by decide), h51, runMoves_append]
  apply not_noRepeat_of_rejected
  · exact runMoves_ne_nil _ _ (by simp)
  · rw [lastTower_runMoves, lastTower_singleton, reachable_widest_alone]
    decide

theorem bottom_disk_stays_applyMoves (moves : List (Move × Move)) : ∀ (s : Tower) (b : Nat)
    (rest : Rod), s.left = b :: rest → 100 < b → b < 2147483648 →
    (∀ d ∈ rest ++ s.middle ++ s.right, d < b) →
    ∃ rest1, (applyMoves s moves).left = b :: rest1 := by
  induction moves with
  | nil =>
    intro s b rest hleft _ _ _
    exact ⟨rest, hleft⟩
  | cons mv tail ih =>
    intro s b rest hleft hb hb31 hw
    obtain ⟨rest1, h1, h2⟩ := bottom_disk_stays s b rest hleft hb hb31 hw mv.1 mv.2
    rw [applyMoves_cons]
    exact ih _ b rest1 h1 hb hb31 h2

theorem initial_eq_goal_of_wrap : applyMoves (initial 2147483649) [] = goal 2147483649 := by
  unfold goal
  rw [applyMoves_nil, initial_left, initial_eq, initialCount_zero_of_wrap]
  rfl

theorem solveManually_none (N : Nat) (h1 : 51 ≤ N) (h2 : N ≤ 2147483648)
    (inputs : List (Move × Move)) : solveManually N inputs = none := by
  unfold solveManually
  apply solveManuallyLoop_none N h1 h2
  exact ⟨[], by rw [lastTower_singleton]; rfl⟩

/-! ## Towers appended by the iterative loop -/

theorem solveIteratively_aux_appends (towers : Towers) (p q : Move) :
    ∃ a b, _solveIteratively towers p q = towers ++ [makeMove (lastTower towers) a b] := by
  rw [solveIteratively_aux_eq]
  split_ifs
  · exact ⟨q, p, rfl⟩
  · exact ⟨p, q, rfl⟩
  · exact ⟨q, p, rfl⟩
  · exact ⟨p, q, rfl⟩

/-- Every tower of a history extended by the loop of `solveIteratively` is reached from a
given tower by a sequence of `makeMove` calls when those of the history it starts from
are. -/
theorem mem_solveIterativelyLoop (s0 : Tower) (even : Bool) (k : Nat) :
    ∀ (i : Int) (towers : Towers), towers ≠ [] →
    (∀ s ∈ towers, ∃ ms, s = applyMoves s0 ms) →
    ∀ s ∈ solveIterativelyLoop even k i towers, ∃ ms, s = applyMoves s0 ms := by
  induction k with
  | zero =>
    intro i towers _ h s hs
    exact h s hs
  | succ k ih =>
    intro i towers hne h
    simp only [solveIterativelyLoop]
    rw [solveIterativelyBody_eq]
    obtain ⟨a, b, hab⟩ := solveIteratively_aux_appends towers
      (cand even Move.left Move.middle Move.right i).1
      (cand even Move.left Move.middle Move.right i).2
    rw [hab]
    apply ih
    · simp
    · intro s hs
      rw [List.mem_append, List.mem_singleton] at hs
      rcases hs with hs | hs
      · exact h s hs
      · have hlast : lastTower towers ∈ towers :=
          List.mem_of_mem_getLast? (getLast_eq_lastTower towers hne)
        obtain ⟨ms, hms⟩ := h _ hlast
        refine ⟨ms ++ [(a, b)], ?_⟩
        rw [hs, applyMoves_append, ← hms]
        rfl

theorem mem_solveIterativelyLoop_initial (N : Nat) (even : Bool) (k : Nat) (i : Int)
    (s : Tower) (hs : s ∈ solveIterativelyLoop even k i [initial N]) :
    ∃ ms, s = applyMoves (initial N) ms := by
  apply mem_solveIterativelyLoop (initial N) even k i [initial N] (by simp) _ s hs
  intro s1 hs1
  rw [List.mem_singleton] at hs1
  exact ⟨[], by rw [hs1]; rfl⟩

theorem lastTower_solveRecursively_32 : lastTower (solveRecursively 32) = goal 32 := by
  rw [lastTower_solveRecursively, initialCount_eq 32 (by decide)]
  exact (recMoves_initial 32 (by decide)).2

/-! ## The move function: legal and rejected moves -/

/-- C1: for distinct locations, a non-empty source rod and `score` of the source at most
`score` of the destination, `makeMove` returns the tower whose source rod is the old one
without its last (top) disk, whose destination rod is the old one with that disk appended
as new last element, and whose third rod is unchanged. -/
theorem makeMove_moves_top_disk (s : Tower) (from_ to_ : Move) (hne : from_ ≠ to_)
    (hfrom : rod s from_ ≠ []) (hscore : score (rod s from_) ≤ score (rod s to_)) :
    ∃ d rest, rod s from_ = rest ++ [d] ∧
      rod (makeMove s from_ to_) from_ = rest ∧
      rod (makeMove s from_ to_) to_ = rod s to_ ++ [d] ∧
      ∀ third, third ≠ from_ → third ≠ to_ →
        rod (makeMove s from_ to_) third = rod s third := by
  rw [makeMove_legal s from_ to_ hne hfrom hscore]
  rcases rod_cases (rod s from_) with h0 | ⟨rest, d, hr⟩
  · exact absurd h0 hfrom
  · refine ⟨d, rest, hr, ?_, ?_, ?_⟩
    · rw [rod_setRod_ne _ _ _ _ hne, rod_setRod_same, hr, dropLast_snoc]
    · rw [rod_setRod_same, hr, top_append]
    · intro third h1 h2
      rw [rod_setRod_ne _ _ _ _ h2, rod_setRod_ne _ _ _ _ h1]

/-- Witness for C1: the top disk of the left rod of `([3, 1], [], [])` goes to the middle. -/
theorem makeMove_moves_top_disk_witness :
    (Move.left ≠ Move.middle ∧ rod ⟨[3, 1], [], []⟩ Move.left ≠ [] ∧
      score (rod ⟨[3, 1], [], []⟩ Move.left) ≤ score (rod ⟨[3, 1], [], []⟩ Move.middle)) ∧
    ∃ d rest, rod ⟨[3, 1], [], []⟩ Move.left = rest ++ [d] ∧
      rod (makeMove ⟨[3, 1], [], []⟩ Move.left Move.middle) Move.left = rest ∧
      rod (makeMove ⟨[3, 1], [], []⟩ Move.left Move.middle) Move.middle =
        rod ⟨[3, 1], [], []⟩ Move.middle ++ [d] ∧
      ∀ third, third ≠ Move.left → third ≠ Move.middle →
        rod (makeMove ⟨[3, 1], [], []⟩ Move.left Move.middle) third =
          rod ⟨[3, 1], [], []⟩ third :=
  ⟨⟨by decide, by decide, by decide⟩,
    makeMove_moves_top_disk ⟨[3, 1], [], []⟩ Move.left Move.middle
      (by decide) (by decide) (by decide)⟩

/-- C2: when the two locations are the same, or the source rod is empty, or the source
scores more than the destination, `makeMove` returns a tower that `areEqual` reports equal
to its argument (the three rods have the same disks in the same order). -/
theorem makeMove_rejected_areEqual (s : Tower) (from_ to_ : Move)
    (h : from_ = to_ ∨ rod s from_ = [] ∨ score (rod s from_) > score (rod s to_)) :
    areEqual (makeMove s from_ to_) s = true ∧ makeMove s from_ to_ = s := by
  rw [makeMove_illegal s from_ to_ h]
  exact ⟨(areEqual_iff s s).mpr rfl, rfl⟩

/-- Witness for C2: disk 3 is not put onto disk 1. -/
theorem makeMove_rejected_areEqual_witness :
    (Move.left = Move.middle ∨ rod ⟨[3], [1], []⟩ Move.left = [] ∨
      score (rod ⟨[3], [1], []⟩ Move.left) > score (rod ⟨[3], [1], []⟩ Move.middle)) ∧
    (areEqual (makeMove ⟨[3], [1], []⟩ Move.left Move.middle) ⟨[3], [1], []⟩ = true ∧
      makeMove ⟨[3], [1], []⟩ Move.left Move.middle = ⟨[3], [1], []⟩) :=
  ⟨by decide, makeMove_rejected_areEqual ⟨[3], [1], []⟩ Move.left Move.middle (by decide)⟩

/-- C3: `areEqual (makeMove s from to) s` holds exactly when the move is rejected (same
location, empty source, or source scoring more than the destination); an accepted move
between distinct rods is always reported as different from its argument. -/
theorem areEqual_makeMove_iff_rejected (s : Tower) (from_ to_ : Move) :
    areEqual (makeMove s from_ to_) s = true ↔
      (from_ = to_ ∨ rod s from_ = [] ∨ score (rod s from_) > score (rod s to_)) := by
  constructor
  · intro h
    by_contra hc
    simp only [not_or, not_lt] at hc
    obtain ⟨hne, hf, hs⟩ := hc
    have heq := (areEqual_iff _ _).mp h
    have hrod := congrArg (fun x => (rod x from_).length) heq
    simp only [makeMove_legal s from_ to_ hne hf hs, rod_setRod_ne _ _ _ _ hne,
      rod_setRod_same, List.length_dropLast] at hrod
    have : (rod s from_).length ≠ 0 := fun h0 => hf (List.length_eq_zero.mp h0)
    omega
  · intro h
    rw [makeMove_illegal s from_ to_ h]
    exact (areEqual_iff s s).mpr rfl

/-- C4 (evaluation of the code): the score of an empty rod, 100, is smaller than the width
101 of the widest disk that `initial` builds for 51 disks.  The tower with that disk alone
on the left rod, the 50 others on the middle rod and the right rod empty is reached from
`initial` by `makeMove` calls, and there `makeMove` from the left rod to the empty right
rod returns the tower unchanged. -/
theorem score_empty_below_widest_of_51 :
    score [] = 100 ∧ (initial 51).left.head? = some 101 ∧ score [101] = 101 ∧
    applyMoves (initial 51) (recMoves 50 Move.left Move.right Move.middle) =
      ⟨[101], (initial 50).left, []⟩ ∧
    makeMove ⟨[101], (initial 50).left, []⟩ Move.left Move.right =
      ⟨[101], (initial 50).left, []⟩ :=
  ⟨by decide, by decide, by decide, reachable_widest_alone, by decide⟩

/-! ## Conservation of disks -/

/-- C5: `makeMove` never changes the multiset of disk widths over the three rods, for any
tower and any two locations; hence every tower reached from `initial` by any sequence of
`makeMove` calls holds exactly the disks of `initial`. -/
theorem makeMove_conserves_disks (s : Tower) (from_ to_ : Move) :
    diskMultiset (makeMove s from_ to_) = diskMultiset s ∧
    ∀ (DISKS : Nat) (moves : List (Move × Move)),
      diskMultiset (applyMoves (initial DISKS) moves) = diskMultiset (initial DISKS) :=
  ⟨diskMultiset_makeMove s from_ to_, fun DISKS moves =>
    diskMultiset_applyMoves (initial DISKS) moves⟩

/-! ## Smallest on top -/

/-- C6: for every disk count and every finite sequence of `(from, to)` pairs applied with
`makeMove` starting from `initial`, every rod of the resulting tower is strictly decreasing
in width from bottom (index 0) to top (last element) and no two disks share a width. -/
theorem smallestOnTop_reachable (DISKS : Nat) (moves : List (Move × Move)) :
    SmallestOnTop (applyMoves (initial DISKS) moves) := by
  obtain ⟨F, hpw, hbig, hsc, hfr, _⟩ := frozen_initial DISKS
  exact smallestOnTop_of_frozen F hpw hbig _ (frozen_applyMoves F hsc _ moves hfr)

/-! ## The recursive solver -/

/-- C7 (evaluation of the code): for one disk `solveRecursively` returns the history
`([1], [], [])`, `([], [], [1])` of the specification, but for 51 disks the last tower of
its history still has the widest disk, of width 101, at the bottom of the left rod, and so
is not the goal tower. -/
theorem solveRecursively_51_not_goal :
    solveRecursively 1 = [⟨[1], [], []⟩, ⟨[], [], [1]⟩] ∧
    (∃ L, (lastTower (solveRecursively 51)).left = 101 :: L) ∧
    lastTower (solveRecursively 51) ≠ goal 51 := by
  have h := reachable_left_of_large 51 (by decide) (by decide)
    (recMoves (initialCount 51) Move.left Move.middle Move.right)
  rw [← lastTower_solveRecursively] at h
  have hw : width (51 - 1) = 101 := by decide
  rw [hw] at h
  refine ⟨by decide, h, ?_⟩
  intro hg
  obtain ⟨L, hL⟩ := h
  rw [hg] at hL
  exact absurd hL (by simp [goal])

/-- C10 (as stated, refuted): for the disk count `2^31 + 1` the `int` loop index of
`initial` starts negative, no disk is built, and the history of `solveRecursively` has one
tower instead of `2 ^ (2^31 + 1)`. -/
theorem solveRecursively_length_wraps :
    (solveRecursively 2147483649).length = 1 ∧
    (solveRecursively 2147483649).length ≠ 2 ^ 2147483649 := by
  have h1 : (solveRecursively 2147483649).length = 1 := by
    rw [solveRecursively_eq, length_runMoves, length_recMoves, initialCount_zero_of_wrap]
    rfl
  refine ⟨h1, ?_⟩
  rw [h1]
  exact one_ne_two_pow 2147483649 (by decide)

/-- C10 (amended): for every disk count `N ≤ 2^31` (zero, or `N - 1` representable as
`int`), the history of `solveRecursively` is the initial tower followed by one appended
tower for each of the `2^N - 1` move steps of the recursion, whether or not `makeMove`
changed the tower: it has exactly `2^N` towers. -/
theorem solveRecursively_length (N : Nat) (hN : N ≤ 2147483648) :
    solveRecursively N = runMoves [initial N] (recMoves N Move.left Move.middle Move.right) ∧
    (recMoves N Move.left Move.middle Move.right).length = 2 ^ N - 1 ∧
    (∃ appended, solveRecursively N = initial N :: appended ∧ appended.length = 2 ^ N - 1) ∧
    (solveRecursively N).length = 2 ^ N := by
  have hc := initialCount_eq N hN
  have h1 := solveRecursively_eq N
  rw [hc] at h1
  have hpos := Nat.one_le_two_pow (n := N)
  refine ⟨h1, length_recMoves N _ _ _, ?_, ?_⟩
  · obtain ⟨added, ha, hl⟩ :=
      runMoves_eq_append [initial N] (recMoves N Move.left Move.middle Move.right)
    exact ⟨added, by rw [h1, ha]; rfl, by rw [hl, length_recMoves]⟩
  · rw [h1, length_runMoves, length_recMoves, List.length_singleton]
    omega

/-- Witness for C10 (amended): two disks give a history of four towers. -/
theorem solveRecursively_length_witness :
    2 ≤ 2147483648 ∧
    (solveRecursively 2 = runMoves [initial 2] (recMoves 2 Move.left Move.middle Move.right) ∧
    (recMoves 2 Move.left Move.middle Move.right).length = 2 ^ 2 - 1 ∧
    (∃ appended, solveRecursively 2 = initial 2 :: appended ∧ appended.length = 2 ^ 2 - 1) ∧
    (solveRecursively 2).length = 2 ^ 2) :=
  ⟨by decide, solveRecursively_length 2 (by decide)⟩

/-! ## The iterative solver -/

/-- C8 (evaluation of the code): for 32 disks the `int` value of `2 << 31` is 0, the bound
`moves` is -1 instead of `2^32 - 1`, the loop body never runs and the history returned by
`solveIteratively` is the initial tower alone, whose last tower is not the goal tower;
the last tower of the history of `solveRecursively` for the same 32 disks is the goal
tower. -/
theorem solveIteratively_32_not_goal :
    solveIteratively 32 = some [initial 32] ∧ lastTower [initial 32] ≠ goal 32 ∧
    iterMoves 32 = some (-1) ∧ lastTower (solveRecursively 32) = goal 32 :=
  ⟨by decide, by decide, by decide, lastTower_solveRecursively_32⟩

/-- Where the bound of the loop is computed without overflow: for every disk count from 1
to 30, `solveIteratively` returns a history whose last tower is the goal tower: the left and middle rods are empty and the right rod
is the left rod of the initial tower, with all `N` disks in strictly decreasing order from
bottom to top. -/
theorem solveIteratively_reaches_goal (N : Nat) (h1 : 1 ≤ N) (h2 : N ≤ 30) :
    ∃ h, solveIteratively N = some h ∧
      (lastTower h).left = [] ∧ (lastTower h).middle = [] ∧
      (lastTower h).right = (initial N).left ∧
      (initial N).left.length = N ∧ (initial N).left.Pairwise (· > ·) := by
  have hc := initialCount_eq N (by omega)
  refine ⟨solveRecursively N, solveIteratively_eq_solveRecursively N h1 h2, ?_⟩
  have hg := (recMoves_initial N (by omega)).2
  have hl := lastTower_solveRecursively N
  rw [hc, hg] at hl
  rw [hl, initial_left, hc]
  refine ⟨rfl, rfl, ?_, length_initialLoop N, pairwise_initialLoop N (by omega)⟩
  unfold goal
  rw [initial_left, hc]

/-- The iterative solver reaches the goal for three disks. -/
theorem solveIteratively_reaches_goal_witness :
    (1 ≤ 3 ∧ 3 ≤ 30) ∧
    ∃ h, solveIteratively 3 = some h ∧
      (lastTower h).left = [] ∧ (lastTower h).middle = [] ∧
      (lastTower h).right = (initial 3).left ∧
      (initial 3).left.length = 3 ∧ (initial 3).left.Pairwise (· > ·) :=
  ⟨by decide, solveIteratively_reaches_goal 3 (by decide) (by decide)⟩

/-- C9 (evaluation of the code): for 32 disks the bound `(2 << (disks - 1)) - 1` computed
in `int` arithmetic is -1, not `2^32 - 1`; the loop runs no iteration and the history
returned has one tower, not `2^32`, while the history of `solveRecursively` for the same
32 disks has `2^32` towers. -/
theorem solveIteratively_32_moves :
    iterMoves 32 = some (-1) ∧ iterMoves 32 ≠ some (2 ^ 32 - 1) ∧
    (solveIteratively 32).map List.length = some 1 ∧
    (solveIteratively 32).map List.length ≠ some (2 ^ 32) ∧
    (solveRecursively 32).length = 2 ^ 32 :=
  ⟨by decide, by decide, by decide, by decide, length_solveRecursively 32 (by decide)⟩

/-- Where the bound of the loop is computed without overflow: for every disk count from 1
to 30 the bound `(2 << (N - 1)) - 1` computed in `int` arithmetic equals `2^N - 1`, the loop runs that many times, and
`solveIteratively` returns the initial tower followed by exactly `2^N - 1` appended towers
(history length `2^N`). -/
theorem solveIteratively_length (N : Nat) (h1 : 1 ≤ N) (h2 : N ≤ 30) :
    iterMoves N = some ((2 : Int) ^ N - 1) ∧
    ∃ h appended, solveIteratively N = some h ∧ h = initial N :: appended ∧
      appended.length = 2 ^ N - 1 ∧ h.length = 2 ^ N := by
  refine ⟨iterMoves_eq N h1 h2, ?_⟩
  have hc := initialCount_eq N (by omega)
  have hrec := solveRecursively_eq N
  rw [hc] at hrec
  obtain ⟨added, ha, hl⟩ :=
    runMoves_eq_append [initial N] (recMoves N Move.left Move.middle Move.right)
  have hpos := Nat.one_le_two_pow (n := N)
  refine ⟨solveRecursively N, added, solveIteratively_eq_solveRecursively N h1 h2, ?_, ?_, ?_⟩
  · rw [hrec, ha]
    rfl
  · rw [hl, length_recMoves]
  · rw [hrec, length_runMoves, length_recMoves, List.length_singleton]
    omega

/-- The iterative solver appends seven towers for three disks. -/
theorem solveIteratively_length_witness :
    (1 ≤ 3 ∧ 3 ≤ 30) ∧
    (iterMoves 3 = some ((2 : Int) ^ 3 - 1) ∧
    ∃ h appended, solveIteratively 3 = some h ∧ h = initial 3 :: appended ∧
      appended.length = 2 ^ 3 - 1 ∧ h.length = 2 ^ 3) :=
  ⟨by decide, solveIteratively_length 3 (by decide) (by decide)⟩

/-! ## Agreement of the solvers -/

/-- C11: for each disk count from 1 to 5 the histories returned by `solveIteratively`,
`solveRecursively` and `solveMutuallyRecursively` are pairwise identical: same length and
`areEqual` towers at every index. -/
theorem solvers_agree_one_to_five (N : Nat) (h1 : 1 ≤ N) (h2 : N ≤ 5) :
    ∃ hi, solveIteratively N = some hi ∧
      SameHistory hi (solveRecursively N) ∧
      SameHistory hi (solveMutuallyRecursively N) ∧
      SameHistory (solveRecursively N) (solveMutuallyRecursively N) := by
  refine ⟨solveRecursively N, solveIteratively_eq_solveRecursively N h1 (by omega), ?_, ?_, ?_⟩
  · exact sameHistory_of_eq _ _ rfl
  · exact sameHistory_of_eq _ _ (solveMutuallyRecursively_eq N).symm
  · exact sameHistory_of_eq _ _ (solveMutuallyRecursively_eq N).symm

/-- Witness for C11: five disks. -/
theorem solvers_agree_one_to_five_witness :
    (1 ≤ 5 ∧ 5 ≤ 5) ∧
    ∃ hi, solveIteratively 5 = some hi ∧
      SameHistory hi (solveRecursively 5) ∧
      SameHistory hi (solveMutuallyRecursively 5) ∧
      SameHistory (solveRecursively 5) (solveMutuallyRecursively 5) :=
  ⟨by decide, solvers_agree_one_to_five 5 (by decide) (by decide)⟩

/-- C12: for every disk count `solveMutuallyRecursively` returns the history of
`solveRecursively`; and for every history, count and locations,
`_solveMutuallyRecursivelyA`, `_solveMutuallyRecursivelyB` and `_solveRecursively` leave
the history in the same final value. -/
theorem mutual_recursion_eq_recursion (DISKS : Nat) :
    solveMutuallyRecursively DISKS = solveRecursively DISKS ∧
    ∀ (h : Towers) (n : Nat) (f t u : Move),
      _solveMutuallyRecursivelyA h n f t u = _solveRecursively h n f t u ∧
      _solveMutuallyRecursivelyB h n f t u = _solveRecursively h n f t u ∧
      _solveMutuallyRecursivelyA h n f t u = _solveMutuallyRecursivelyB h n f t u := by
  refine ⟨solveMutuallyRecursively_eq DISKS, ?_⟩
  intro h n f t u
  obtain ⟨hA, hB⟩ := solveMutuallyRecursively_aux_eq n h f t u
  exact ⟨hA, hB, hA.trans hB.symm⟩

/-- C13 (evaluation of the code): for 32 disks the bound `moves` overflows `int`,
`solveIteratively` returns the initial tower alone while the history of `solveRecursively`
has `2^32` towers, so the two histories differ. -/
theorem solveIteratively_32_ne_solveRecursively :
    solveIteratively 32 = some [initial 32] ∧ (solveRecursively 32).length = 2 ^ 32 ∧
    solveIteratively 32 ≠ some (solveRecursively 32) := by
  have h1 : solveIteratively 32 = some [initial 32] := by decide
  have h2 : (solveRecursively 32).length = 2 ^ 32 := length_solveRecursively 32 (by decide)
  refine ⟨h1, h2, ?_⟩
  intro h
  rw [h1] at h
  have h3 := congrArg List.length (Option.some.inj h)
  rw [h2] at h3
  exact absurd h3 (by decide)

/-- Where the bound of the loop is computed without overflow: for every disk count from 1
to 30 the history returned by `solveIteratively` is the history returned by
`solveRecursively`: the initial tower and
the same `2^N - 1` appended towers in the same order. -/
theorem solveIteratively_eq_recursive_history (N : Nat) (h1 : 1 ≤ N) (h2 : N ≤ 30) :
    solveIteratively N = some (solveRecursively N) ∧ (solveRecursively N).length = 2 ^ N :=
  ⟨solveIteratively_eq_solveRecursively N h1 h2, length_solveRecursively N (by omega)⟩

/-- The iterative and the recursive history agree for four disks. -/
theorem solveIteratively_eq_recursive_history_witness :
    (1 ≤ 4 ∧ 4 ≤ 30) ∧
    (solveIteratively 4 = some (solveRecursively 4) ∧ (solveRecursively 4).length = 2 ^ 4) :=
  ⟨by decide, solveIteratively_eq_recursive_history 4 (by decide) (by decide)⟩

/-- C14 (evaluation of the code): for 51 disks the history returned by `solveRecursively`
(and so the one returned by `solveMutuallyRecursively`) contains two consecutive towers that
are `areEqual`: the move of the disk of width 101 onto the empty right rod is rejected and
the unchanged tower is appended. -/
theorem solveRecursively_51_repeats :
    ¬ NoRepeat (solveRecursively 51) ∧ ¬ NoRepeat (solveMutuallyRecursively 51) := by
  refine ⟨not_noRepeat_solveRecursively_51, ?_⟩
  rw [solveMutuallyRecursively_eq]
  exact not_noRepeat_solveRecursively_51

/-- C15 (as stated, refuted): for one disk the reference recursion started as
`hanoi(1, A, B, C)` with the middle rod as target puts the disk on the middle rod, while
`solveRecursively` puts it on the right rod; and for the disk count `2^31 + 1`, for which
`initial` builds no disk, the histories differ in length whatever the target. -/
theorem solveRecursively_ne_hanoiSpec_middle :
    solveRecursively 1 = [⟨[1], [], []⟩, ⟨[], [], [1]⟩] ∧
    hanoiSpec [initial 1] 1 Move.left Move.middle Move.right =
      [⟨[1], [], []⟩, ⟨[], [1], []⟩] ∧
    solveRecursively 1 ≠ hanoiSpec [initial 1] 1 Move.left Move.middle Move.right ∧
    solveRecursively 2147483649 ≠
      hanoiSpec [initial 2147483649] 2147483649 Move.left Move.right Move.middle := by
  refine ⟨by decide, by decide, by decide, ?_⟩
  intro h
  have h1 := congrArg List.length h
  have h2 : (solveRecursively 2147483649).length = 1 := by
    rw [solveRecursively_eq, length_runMoves, length_recMoves, initialCount_zero_of_wrap]
    rfl
  rw [h2] at h1
  exact length_hanoiSpec_ne 2147483649 (by decide) [initial 2147483649] _ _ _ h1

/-- C15 (amended): for every disk count `N ≤ 2^31` (in particular for `1 ≤ N`), the history
returned by `solveRecursively` is the one generated by the reference recursion started on
the initial tower as `hanoi(N, A, C, B)`: source left, target right, auxiliary middle. -/
theorem solveRecursively_refines_hanoiSpec (N : Nat) (hN : N ≤ 2147483648) :
    solveRecursively N = hanoiSpec [initial N] N Move.left Move.right Move.middle :=
  solveRecursively_eq_hanoiSpec N hN

/-- Witness for C15 (amended): three disks. -/
theorem solveRecursively_refines_hanoiSpec_witness :
    3 ≤ 2147483648 ∧
    solveRecursively 3 = hanoiSpec [initial 3] 3 Move.left Move.right Move.middle :=
  ⟨by decide, solveRecursively_refines_hanoiSpec 3 (by decide)⟩

/-! ## The manual solver -/

/-- C16: one iteration of the loop of `solveManually` on a non-empty history: when the move
is rejected on the last tower (same location, empty source rod, or source scoring more than
the destination) the history is left unchanged; otherwise it grows by exactly one tower,
the result of the move. -/
theorem solveManuallyStep_history (DISKS : Nat) (towers : Towers) (from_ to_ : Move)
    (hne : towers ≠ []) :
    (Rejected (lastTower towers) from_ to_ →
      (solveManuallyStep DISKS towers from_ to_).1 = towers) ∧
    (¬ Rejected (lastTower towers) from_ to_ →
      (solveManuallyStep DISKS towers from_ to_).1 =
        towers ++ [makeMove (lastTower towers) from_ to_] ∧
      (solveManuallyStep DISKS towers from_ to_).1.length = towers.length + 1) ∧
    (solveManuallyStep DISKS towers from_ to_).1 ≠ [] := by
  refine ⟨solveManuallyStep_rejected DISKS towers from_ to_, ?_, ?_⟩
  · intro h
    have h1 := solveManuallyStep_accepted DISKS towers from_ to_ h
    refine ⟨h1, ?_⟩
    rw [h1, List.length_append, List.length_singleton]
  · by_cases h : Rejected (lastTower towers) from_ to_
    · rw [solveManuallyStep_rejected DISKS towers from_ to_ h]
      exact hne
    · rw [solveManuallyStep_accepted DISKS towers from_ to_ h]
      simp

/-- Witness for C16: the history of the initial tower of two disks. -/
theorem solveManuallyStep_history_witness :
    [initial 2] ≠ [] ∧
    ((Rejected (lastTower [initial 2]) Move.left Move.middle →
      (solveManuallyStep 2 [initial 2] Move.left Move.middle).1 = [initial 2]) ∧
    (¬ Rejected (lastTower [initial 2]) Move.left Move.middle →
      (solveManuallyStep 2 [initial 2] Move.left Move.middle).1 =
        [initial 2] ++ [makeMove (lastTower [initial 2]) Move.left Move.middle] ∧
      (solveManuallyStep 2 [initial 2] Move.left Move.middle).1.length =
        [initial 2].length + 1) ∧
    (solveManuallyStep 2 [initial 2] Move.left Move.middle).1 ≠ []) :=
  ⟨by decide, solveManuallyStep_history 2 [initial 2] Move.left Move.middle (by decide)⟩

/-! ## The initial tower -/

/-- C17 (as stated, refuted): for the disk count `2^30 + 1`, whose predecessor `2^30` is
representable as `int`, the first width `i * 2 + 1 = 2^31 + 1` is not: converted to `int`
and then to `unsigned long` it is `2^64 - 2^31 + 1`, so the left rod of `initial` is not
`2N-1, ..., 3, 1`. -/
theorem initial_overflow_width :
    (initial 1073741825).left.head? = some 18446744071562067969 ∧
    (oddWidths 1073741825).head? = some 2147483649 ∧
    initial 1073741825 ≠ ⟨oddWidths 1073741825, [], []⟩ := by
  have h1 : (initial 1073741825).left.head? = some 18446744071562067969 :=
    head_initial_overflow 1073741824 (by decide) (by decide)
  have h2 : (oddWidths 1073741825).head? = some 2147483649 := by
    rw [oddWidths_succ 1073741824]
    rfl
  refine ⟨h1, h2, ?_⟩
  intro h
  rw [h] at h1
  simp only at h1
  rw [h2] at h1
  exact absurd h1 (by decide)

/-- C17 (amended): for every disk count `N ≤ 2^30` (so that every width up to `2N - 1` is
representable as `int`), `initial` returns the tower whose left rod is `2N-1, 2N-3, ..., 3, 1`
from bottom to top (exactly `N` disks, strictly decreasing, the widest at the bottom and
width 1 on top) and whose middle and right rods are empty. -/
theorem initial_oddWidths (N : Nat) (hN : N ≤ 1073741824) :
    initial N = ⟨oddWidths N, [], []⟩ ∧ (oddWidths N).length = N ∧
    (oddWidths N).Pairwise (· > ·) ∧
    (1 ≤ N → (oddWidths N).head? = some (2 * N - 1) ∧ (oddWidths N).getLast? = some 1) := by
  refine ⟨initial_eq_oddWidths N hN, length_oddWidths N, ?_, ?_⟩
  · rw [← initialLoop_eq_oddWidths N hN]
    exact pairwise_initialLoop N (Nat.le_trans hN (by decide))
  · intro h1
    obtain ⟨k, hk⟩ : ∃ k, N = k + 1 := ⟨N - 1, by omega⟩
    subst hk
    refine ⟨?_, getLast_oddWidths k⟩
    rw [oddWidths_succ, List.head?_cons]
    congr 1

/-- Witness for C17 (amended): three disks give the left rod 5, 3, 1. -/
theorem initial_oddWidths_witness :
    3 ≤ 1073741824 ∧
    (initial 3 = ⟨oddWidths 3, [], []⟩ ∧ (oddWidths 3).length = 3 ∧
    (oddWidths 3).Pairwise (· > ·) ∧
    (1 ≤ 3 → (oddWidths 3).head? = some (2 * 3 - 1) ∧ (oddWidths 3).getLast? = some 1)) :=
  ⟨by decide, initial_oddWidths 3 (by decide)⟩

/-! ## Progress of the iterative step and of the recursive solver -/

/-- C18: on a non-empty history whose last tower has all widths below 100, for two
distinct locations that are not both empty in that tower, `_solveIteratively` appends
exactly one tower and keeps the earlier ones; the appended tower is the result of the move
between the two locations in a direction that `makeMove` accepts, and it is not `areEqual`
to the previous last tower (the last element of the history given). -/
theorem solveIteratively_aux_appends_changed (towers : Towers) (p q : Move)
    (hne : towers ≠ []) (hsmall : AllBelow 100 (lastTower towers)) (hpq : p ≠ q)
    (hnb : ¬ (rod (lastTower towers) p = [] ∧ rod (lastTower towers) q = [])) :
    ∃ a b, ((a = p ∧ b = q) ∨ (a = q ∧ b = p)) ∧ rod (lastTower towers) a ≠ [] ∧
      score (rod (lastTower towers) a) ≤ score (rod (lastTower towers) b) ∧
      _solveIteratively towers p q = towers ++ [makeMove (lastTower towers) a b] ∧
      areEqual (makeMove (lastTower towers) a b) (lastTower towers) = false ∧
      (_solveIteratively towers p q).length = towers.length + 1 ∧
      (_solveIteratively towers p q).take towers.length = towers ∧
      towers.getLast? = some (lastTower towers) := by
  obtain ⟨a, b, hab, ha, hs, he, hd⟩ := solveIteratively_aux_progress towers p q hsmall hpq hnb
  refine ⟨a, b, hab, ha, hs, he, hd, ?_, ?_, getLast_eq_lastTower towers hne⟩
  · rw [he, List.length_append, List.length_singleton]
  · rw [he, List.take_left']
    rfl


/-- Witness for C18: the initial tower of two disks, left and middle. -/
theorem solveIteratively_aux_appends_changed_witness :
    ([initial 2] ≠ [] ∧ AllBelow 100 (lastTower [initial 2]) ∧ Move.left ≠ Move.middle ∧
      ¬ (rod (lastTower [initial 2]) Move.left = [] ∧
        rod (lastTower [initial 2]) Move.middle = [])) ∧
    ∃ a b, ((a = Move.left ∧ b = Move.middle) ∨ (a = Move.middle ∧ b = Move.left)) ∧
      rod (lastTower [initial 2]) a ≠ [] ∧
      score (rod (lastTower [initial 2]) a) ≤ score (rod (lastTower [initial 2]) b) ∧
      _solveIteratively [initial 2] Move.left Move.middle =
        [initial 2] ++ [makeMove (lastTower [initial 2]) a b] ∧
      areEqual (makeMove (lastTower [initial 2]) a b) (lastTower [initial 2]) = false ∧
      (_solveIteratively [initial 2] Move.left Move.middle).length = [initial 2].length + 1 ∧
      (_solveIteratively [initial 2] Move.left Move.middle).take [initial 2].length =
        [initial 2] ∧
      [initial 2].getLast? = some (lastTower [initial 2]) :=
  ⟨by decide, solveIteratively_aux_appends_changed [initial 2] Move.left Move.middle
    (by decide) (by decide) (by decide) (by decide)⟩

/-- C19: for every disk count from 1 to 50 (every width is at most 99, below the score 100
of an empty rod) the history returned by `solveRecursively` ends in the goal tower (left
and middle rods empty, right rod equal to the left rod of the initial tower) and each of
its `2^N - 1` appended towers differs from the tower before it. -/
theorem solveRecursively_solves_up_to_50 (N : Nat) (h1 : 1 ≤ N) (h2 : N ≤ 50) :
    (lastTower (solveRecursively N)).left = [] ∧
    (lastTower (solveRecursively N)).middle = [] ∧
    (lastTower (solveRecursively N)).right = (initial N).left ∧
    NoRepeat (solveRecursively N) ∧
    (solveRecursively N).length = 2 ^ N ∧
    (∀ d ∈ (initial N).left, d ≤ 99) ∧ (initial N).left.length = N := by
  have hc := initialCount_eq N (by omega)
  obtain ⟨hleg, hgoal⟩ := recMoves_initial N h2
  have hl := lastTower_solveRecursively N
  rw [hc, hgoal] at hl
  have hnr : NoRepeat (solveRecursively N) := by
    rw [solveRecursively_eq, hc]
    apply noRepeat_runMoves _ [initial N] (noRepeat_singleton _) (by simp)
    rw [lastTower_singleton]
    exact hleg
  refine ⟨by rw [hl]; rfl, by rw [hl]; rfl, by rw [hl]; rfl, hnr,
    length_solveRecursively N (by omega), ?_, ?_⟩
  · intro d hd
    rw [initial_left, hc] at hd
    have := initialLoop_small N h2 d hd
    omega
  · rw [initial_left, hc, length_initialLoop]

/-- Witness for C19: three disks. -/
theorem solveRecursively_solves_up_to_50_witness :
    (1 ≤ 3 ∧ 3 ≤ 50) ∧
    ((lastTower (solveRecursively 3)).left = [] ∧
    (lastTower (solveRecursively 3)).middle = [] ∧
    (lastTower (solveRecursively 3)).right = (initial 3).left ∧
    NoRepeat (solveRecursively 3) ∧
    (solveRecursively 3).length = 2 ^ 3 ∧
    (∀ d ∈ (initial 3).left, d ≤ 99) ∧ (initial 3).left.length = 3) :=
  ⟨by decide, solveRecursively_solves_up_to_50 3 (by decide) (by decide)⟩

/-! ## Disks wider than the score of an empty rod -/

/-- C20 (as stated, refuted): a disk of width `2^32`, alone in the tower, is wider than
100 and than every other disk, but its `int` score is 0 and `makeMove` moves it off the
left rod; and for the disk count `2^31 + 1`, which is at least 51, `initial` builds no
disk, so the initial tower itself is the goal tower. -/
theorem wide_disk_moves_when_score_wraps :
    (100 < 4294967296 ∧ ∀ d ∈ ([] : Rod) ++ [] ++ [], d < 4294967296) ∧
    score [4294967296] = 0 ∧
    makeMove ⟨[4294967296], [], []⟩ Move.left Move.middle = ⟨[], [4294967296], []⟩ ∧
    51 ≤ 2147483649 ∧
    applyMoves (initial 2147483649) [] = goal 2147483649 :=
  ⟨by decide, by decide, by decide, by decide, initial_eq_goal_of_wrap⟩

/-- C20 (amended): in a tower whose left rod has a bottom disk of width above 100 and
below `2^31` that is wider than every other disk, every `makeMove`, and every sequence of
`makeMove` calls, leaves that disk at the bottom of the left rod; and for every disk count
`N` with `51 ≤ N ≤ 2^31` no tower reached from `initial` by `makeMove` calls is the goal
tower: none in the history of the recursive or mutually recursive solver, none in a history
returned by the iterative solver nor in a history built by any number of iterations of its
loop, and the manual session never reaches `won`. -/
theorem wide_disk_never_moves (s : Tower) (b : Nat) (rest : Rod) (hleft : s.left = b :: rest)
    (hb : 100 < b) (hb31 : b < 2147483648) (hw : ∀ d ∈ rest ++ s.middle ++ s.right, d < b)
    (N : Nat) (h1 : 51 ≤ N) (h2 : N ≤ 2147483648) :
    (∀ from_ to_, ∃ rest1, (makeMove s from_ to_).left = b :: rest1 ∧
      ∀ d ∈ rest1 ++ (makeMove s from_ to_).middle ++ (makeMove s from_ to_).right, d < b) ∧
    (∀ moves, ∃ rest1, (applyMoves s moves).left = b :: rest1) ∧
    (∀ moves, applyMoves (initial N) moves ≠ goal N) ∧
    (∀ t ∈ solveRecursively N, t ≠ goal N) ∧
    (∀ t ∈ solveMutuallyRecursively N, t ≠ goal N) ∧
    (∀ h, solveIteratively N = some h → ∀ t ∈ h, t ≠ goal N) ∧
    (∀ inputs, solveManually N inputs = none) ∧
    (∀ (even : Bool) (k : Nat) (i : Int),
      ∀ t ∈ solveIterativelyLoop even k i [initial N], t ≠ goal N) := by
  have hrec : ∀ t ∈ solveRecursively N, t ≠ goal N := by
    intro t ht
    obtain ⟨ms, hms⟩ := mem_solveRecursively N t ht
    rw [hms]
    exact reachable_ne_goal N h1 h2 ms
  refine ⟨bottom_disk_stays s b rest hleft hb hb31 hw,
    fun moves => bottom_disk_stays_applyMoves moves s b rest hleft hb hb31 hw,
    reachable_ne_goal N h1 h2, hrec, ?_, ?_, solveManually_none N h1 h2, ?_⟩
  · rw [solveMutuallyRecursively_eq]
    exact hrec
  · intro h hh
    rw [solveIteratively_none N (by omega) h2] at hh
    exact absurd hh (by simp)
  · intro even k i t ht
    obtain ⟨ms, hms⟩ := mem_solveIterativelyLoop_initial N even k i t ht
    rw [hms]
    exact reachable_ne_goal N h1 h2 ms

/-- Witness for C20 (amended): the disk 101 under the disk 3, and 51 disks. -/
theorem wide_disk_never_moves_witness :
    ((⟨[101, 3], [1], []⟩ : Tower).left = 101 :: [3] ∧ 100 < 101 ∧ 101 < 2147483648 ∧
      (∀ d ∈ [3] ++ (⟨[101, 3], [1], []⟩ : Tower).middle ++
        (⟨[101, 3], [1], []⟩ : Tower).right, d < 101) ∧ 51 ≤ 51 ∧ 51 ≤ 2147483648) ∧
    ((∀ from_ to_, ∃ rest1, (makeMove ⟨[101, 3], [1], []⟩ from_ to_).left = 101 :: rest1 ∧
      ∀ d ∈ rest1 ++ (makeMove ⟨[101, 3], [1], []⟩ from_ to_).middle ++
        (makeMove ⟨[101, 3], [1], []⟩ from_ to_).right, d < 101) ∧
    (∀ moves, ∃ rest1, (applyMoves ⟨[101, 3], [1], []⟩ moves).left = 101 :: rest1) ∧
    (∀ moves, applyMoves (initial 51) moves ≠ goal 51) ∧
    (∀ t ∈ solveRecursively 51, t ≠ goal 51) ∧
    (∀ t ∈ solveMutuallyRecursively 51, t ≠ goal 51) ∧
    (∀ h, solveIteratively 51 = some h → ∀ t ∈ h, t ≠ goal 51) ∧
    (∀ inputs, solveManually 51 inputs = none) ∧
    (∀ (even : Bool) (k : Nat) (i : Int),
      ∀ t ∈ solveIterativelyLoop even k i [initial 51], t ≠ goal 51)) :=
  ⟨by decide, wide_disk_never_moves ⟨[101, 3], [1], []⟩ 101 [3] rfl (by decide) (by decide)
    (by decide) 51 (by decide) (by decide)⟩

end Hanoi
